import Mathlib

/-!
Verification of the persistence and repository layer of the
openclaw-project-dashboard plugin (a shallow embedding of `db.ts` /
`bootstrap.ts` and the health derivation of `index.ts`).

The embedded relational store (sql.js) is modelled as a `DB` record of
row lists, one per table, in physical (rowid) insertion order.  The
durable-store adapter keeps the in-memory database together with the
image of the backing file (`StoreState`): `db.export()` followed by
`writeFileSync` is modelled as replacing the file image with a snapshot
of the current in-memory database.

Every `Date.now()` call site of the source receives its own explicit
time argument, and every `Math.random()`-generated row id is an explicit
argument, so that the embedding is a pure function of its inputs.
SQL statements that can throw (INSERT against a primary key or unique
index, UPDATE against the projects name index) return `Except`; a thrown
statement mutates nothing, exactly as in sql.js.
-/

namespace Dashboard

/-- Traffic-light status of a project; also the result type of the cron
health derivation. -/
inductive ProjectStatus
  | green
  | yellow
  | red
deriving DecidableEq, Repr

/-- The `type` column of an update row. -/
inductive UpdateType
  | note
  | progress
  | decision
  | blocker
  | request
deriving DecidableEq, Repr

/-- Kanban status of a task. -/
inductive TaskStatus
  | todo
  | doing
  | done
deriving DecidableEq, Repr

/-- Status of a queue item. -/
inductive QueueStatus
  | pending
  | in_progress
  | completed
  | skipped
deriving DecidableEq, Repr

/-- Origin tag used for queue items and activity entries. -/
inductive QueueSource
  | human
  | agent
deriving DecidableEq, Repr

/-- A row of the `projects` table (`db.ts`). -/
structure Project where
  id : String
  name : String
  status : ProjectStatus
  objective : Option String
  nextAction : Option String
  strategy : Option String
  hypothesis : Option String
  constraints : Option String
  success : Option String
  dueDate : Option String
  createdAt : Nat
  updatedAt : Nat
deriving DecidableEq, Repr

/-- A row of the `updates` table. -/
structure Update where
  id : String
  projectId : String
  type : UpdateType
  text : String
  createdAt : Nat
deriving DecidableEq, Repr

/-- A row of the `tasks` table. -/
structure Task where
  id : String
  projectId : String
  title : String
  status : TaskStatus
  createdAt : Nat
  updatedAt : Nat
deriving DecidableEq, Repr

/-- A row of the `queue` table.  `rank` is an SQL INTEGER, so an `Int`. -/
structure QueueItem where
  id : String
  projectId : Option String
  instruction : String
  rank : Int
  status : QueueStatus
  source : QueueSource
  createdAt : Nat
  updatedAt : Nat
deriving DecidableEq, Repr

/-- A row of the `activity` table. -/
structure ActivityEntry where
  id : String
  projectId : Option String
  source : QueueSource
  action : String
  detail : Option String
  createdAt : Nat
deriving DecidableEq, Repr

/-- A row of the `cron_snapshots` table, keyed by `jobId`. -/
structure CronSnapshot where
  jobId : String
  lastStatus : String
  lastError : Option String
  lastSeenAt : Nat
deriving DecidableEq, Repr

/-- The whole in-memory relational store: one list per table, in rowid
(insertion) order. -/
structure DB where
  projects : List Project
  updates : List Update
  tasks : List Task
  queue : List QueueItem
  activity : List ActivityEntry
  cronSnapshots : List CronSnapshot
deriving DecidableEq, Repr

/-- The empty database produced by `new SQL.Database()` after `migrate`. -/
def emptyDB : DB :=
  { projects := [], updates := [], tasks := [], queue := [],
    activity := [], cronSnapshots := [] }

/-- The durable-store adapter state: the live in-memory database plus
the current content of the backing file (`none` before any persist). -/
structure StoreState where
  db : DB
  file : Option DB
deriving DecidableEq, Repr

/-- `persist(db, dbFile)` (`db.ts`): `db.export()` then `writeFileSync`;
the file now holds a full snapshot of the in-memory database. -/
def persist (st : StoreState) : StoreState :=
  { st with file := some st.db }

/-- `exec(db, sql, params)` (`db.ts`): run a mutating statement, then
`__persist`.  The statement itself is the `DB → DB` argument. -/
def execDb (st : StoreState) (f : DB → DB) : StoreState :=
  persist { st with db := f st.db }

/-- `openDb(dbFile)` (`db.ts`): load the file image if present, else an
empty engine, then an initial full persist. -/
def openDb (file : Option DB) : StoreState :=
  persist { db := file.getD emptyDB, file := file }

/-- ASCII lowering, the behaviour of SQLite `lower()` and of
`String.prototype.toLowerCase` on ASCII data. -/
def asciiLowerChar (c : Char) : Char :=
  if 'A' ≤ c ∧ c ≤ 'Z' then Char.ofNat (c.toNat + 32) else c

/-- ASCII lowering of a string. -/
def asciiLower (s : String) : String :=
  String.mk (s.data.map asciiLowerChar)

/-- Rendering of a `ProjectStatus` back to its stored TEXT value. -/
def ProjectStatus.text : ProjectStatus → String
  | .green => "green"
  | .yellow => "yellow"
  | .red => "red"

/-- Rendering of an `UpdateType` back to its stored TEXT value. -/
def UpdateType.text : UpdateType → String
  | .note => "note"
  | .progress => "progress"
  | .decision => "decision"
  | .blocker => "blocker"
  | .request => "request"

/-- Time/id pair consumed by one potential `logActivity` call inside a
mutation (`Date.now()` read plus the generated `a_…` id). -/
structure LogSlot where
  time : Nat
  aid : String
deriving DecidableEq, Repr

/-- INSERT INTO activity: fails on an `a_…` primary-key collision,
otherwise appends the row and persists.  This is the body of the
repository's `logActivity`. -/
def insertActivity (st : StoreState) (e : ActivityEntry) :
    Except String StoreState :=
  if st.db.activity.any (fun a => decide (a.id = e.id)) then
    .error "UNIQUE constraint failed: activity.id"
  else
    .ok (execDb st (fun db => { db with activity := db.activity ++ [e] }))

/-- The activity row built by `logActivity` from its parameters. -/
def mkActivityEntry (projectId : Option String) (source : QueueSource)
    (action : String) (detail : Option String) (now : Nat) (aid : String) :
    ActivityEntry :=
  { id := aid, projectId := projectId, source := source,
    action := action, detail := detail, createdAt := now }

/-- `logActivity` (`db.ts`): pure append of an activity row. -/
def logActivity (st : StoreState) (projectId : Option String)
    (source : QueueSource) (action : String) (detail : Option String)
    (now : Nat) (aid : String) :
    Except String (StoreState × ActivityEntry) :=
  insertActivity st (mkActivityEntry projectId source action detail now aid)
  >>= fun s => .ok (s, mkActivityEntry projectId source action detail now aid)

/-- `getProjectById` (`db.ts`): first row whose id matches. -/
def getProjectById (db : DB) (id : String) : Option Project :=
  db.projects.find? (fun p => decide (p.id = id))

/-- `getProjectByName` (`db.ts`): case-insensitive name lookup via
SQLite `lower()`. -/
def getProjectByName (db : DB) (name : String) : Option Project :=
  db.projects.find? (fun p => decide (asciiLower p.name = asciiLower name))

/-- The fresh green project row inserted by `createProject`. -/
def newProjectRow (name : String) (now : Nat) (id : String) : Project :=
  { id := id, name := name, status := .green, objective := none,
    nextAction := none, strategy := none, hypothesis := none,
    constraints := none, success := none, dueDate := none,
    createdAt := now, updatedAt := now }

/-- `createProject(name)` (`db.ts`): INSERT a fresh green project with
`createdAt = updatedAt = now`.  The INSERT throws on a duplicate id
(primary key) or a duplicate stored name (`idx_projects_name`, a
case-sensitive BINARY-collation unique index). -/
def createProject (st : StoreState) (name : String) (now : Nat)
    (id : String) : Except String (StoreState × Project) :=
  if st.db.projects.any (fun p => decide (p.id = id)) then
    .error "UNIQUE constraint failed: projects.id"
  else if st.db.projects.any (fun p => decide (p.name = name)) then
    .error "UNIQUE constraint failed: idx_projects_name"
  else
    .ok (execDb st (fun db =>
      { db with projects := db.projects ++ [newProjectRow name now id] }),
      newProjectRow name now id)

/-- A `Partial<Project>` patch: `none` means the key is absent from the
patch, so the existing value is kept by the object spread. -/
structure ProjectPatch where
  id : String
  name : Option String
  status : Option ProjectStatus
  objective : Option (Option String)
  nextAction : Option (Option String)
  strategy : Option (Option String)
  hypothesis : Option (Option String)
  constraints : Option (Option String)
  success : Option (Option String)
  dueDate : Option (Option String)
deriving DecidableEq, Repr

/-- A patch that carries only the id (used by the `addUpdate` bump,
whose explicit `updatedAt` value is discarded by `updateProject`). -/
def idOnlyPatch (id : String) : ProjectPatch :=
  { id := id, name := none, status := none, objective := none,
    nextAction := none, strategy := none, hypothesis := none,
    constraints := none, success := none, dueDate := none }

/-- The merged row `{ ...existing, ...patch, updatedAt: Date.now() }`. -/
def mergeProject (existing : Project) (patch : ProjectPatch) (now : Nat) :
    Project :=
  { id := existing.id
    name := patch.name.getD existing.name
    status := patch.status.getD existing.status
    objective := patch.objective.getD existing.objective
    nextAction := patch.nextAction.getD existing.nextAction
    strategy := patch.strategy.getD existing.strategy
    hypothesis := patch.hypothesis.getD existing.hypothesis
    constraints := patch.constraints.getD existing.constraints
    success := patch.success.getD existing.success
    dueDate := patch.dueDate.getD existing.dueDate
    createdAt := existing.createdAt
    updatedAt := now }

/-- Modelled from the spec: the auto-activity block that `db.ts` adds to
`updateProject` (the shipped `db.ts` is not among the source copies; the
spec requires that a project status change emit exactly one
`status_changed` entry with a detail rendering the old and new status,
and that a no-status-change patch emit nothing). -/
def projectStatusActivity (existing updated : Project) (slot : LogSlot) :
    List ActivityEntry :=
  if existing.status ≠ updated.status then
    [{ id := slot.aid, projectId := some updated.id, source := .human,
       action := "status_changed",
       detail := some (existing.status.text ++ " → " ++ updated.status.text),
       createdAt := slot.time }]
  else []

/-- The UPDATE-and-log tail of `updateProject`, after the merged row has
been computed. -/
def updateProjectGo (st : StoreState) (existing updated : Project)
    (slot : LogSlot) : Except String (StoreState × Project) :=
  if st.db.projects.any
      (fun p => decide (p.id ≠ updated.id ∧ p.name = updated.name)) then
    .error "UNIQUE constraint failed: idx_projects_name"
  else
    List.foldlM insertActivity
      (execDb st (fun db =>
        { db with projects :=
            db.projects.map (fun p => if p.id = updated.id then updated else p) }))
      (projectStatusActivity existing updated slot)
    >>= fun s => .ok (s, updated)

/-- `updateProject(patch)` (`db.ts`): fails when the id matches no row;
otherwise merges the patch over the existing row, always refreshing
`updatedAt` from a fresh `Date.now()` read (`now`), UPDATEs the row and
persists, then (auto-activity, modelled from the spec) logs
`status_changed` when the merged status differs.  The UPDATE throws if
the merged name collides with a different row under `idx_projects_name`. -/
def updateProject (st : StoreState) (patch : ProjectPatch) (now : Nat)
    (slot : LogSlot) : Except String (StoreState × Project) :=
  match getProjectById st.db patch.id with
  | none => .error "Project not found"
  | some existing =>
      updateProjectGo st existing (mergeProject existing patch now) slot

/-- The update row inserted by one `addUpdate` call. -/
def mkUpdateRow (uid projectId : String) (ty : UpdateType) (text : String)
    (now : Nat) : Update :=
  { id := uid, projectId := projectId, type := ty, text := text,
    createdAt := now }

/-- Modelled from the spec: the `update_added` activity entry that
`db.ts` appends inside `addUpdate` (the shipped `db.ts` is not among the
source copies; the spec requires an entry tagged `update_added` carrying
the type and a preview of the text capped at 100 characters). -/
def updateAddedEntry (projectId : String) (ty : UpdateType) (text : String)
    (slot : LogSlot) : ActivityEntry :=
  { id := slot.aid, projectId := some projectId, source := .human,
    action := "update_added",
    detail := some (ty.text ++ ": " ++ text.take 100),
    createdAt := slot.time }

/-- The project-bump tail of `addUpdate`: `getProjectById` then, when a
project was found, `updateProject({id, updatedAt: now})` — whose
explicit `updatedAt` value is discarded in favour of a fresh
`Date.now()` read (`bumpNow`).  Nothing happens when the project does
not exist. -/
def bumpProject (st : StoreState) (projectId : String) (bumpNow : Nat)
    (bumpSlot : LogSlot) : Except String StoreState :=
  match getProjectById st.db projectId with
  | some proj =>
      updateProject st (idOnlyPatch proj.id) bumpNow bumpSlot
      >>= fun r => .ok r.fst
  | none => .ok st

/-- `addUpdate({projectId, type, text})` (`db.ts`): INSERT the update row
(`createdAt` from the call's initial `Date.now()` read), then
(auto-activity, modelled from the spec) log an `update_added` entry,
then bump the parent project's `updatedAt` — the bump is skipped
entirely when `getProjectById` finds no project, and there is no other
referential check on `projectId`. -/
def addUpdate (st : StoreState) (projectId : String) (ty : UpdateType)
    (text : String) (now : Nat) (uid : String) (slot : LogSlot)
    (bumpNow : Nat) (bumpSlot : LogSlot) :
    Except String (StoreState × Update) :=
  if st.db.updates.any (fun u => decide (u.id = uid)) then
    .error "UNIQUE constraint failed: updates.id"
  else
    insertActivity
      (execDb st (fun db =>
        { db with updates :=
            db.updates ++ [mkUpdateRow uid projectId ty text now] }))
      (updateAddedEntry projectId ty text slot)
    >>= fun s => bumpProject s projectId bumpNow bumpSlot
    >>= fun s => .ok (s, mkUpdateRow uid projectId ty text now)

/-- `listRecentUpdates(limit)` (`db.ts`): inner join of updates with
their owning project's current name, newest first, capped at `limit`.
An update whose `projectId` matches no project is dropped by the join. -/
structure UpdateRow where
  id : String
  projectId : String
  type : UpdateType
  text : String
  createdAt : Nat
  projectName : String
deriving DecidableEq, Repr

/-- Stable descending insertion by `createdAt` (SQL `ORDER BY createdAt
DESC`; ties keep their relative physical order). -/
def insertDescUpd (x : UpdateRow) : List UpdateRow → List UpdateRow
  | [] => [x]
  | y :: ys => if y.createdAt < x.createdAt then x :: y :: ys
               else y :: insertDescUpd x ys

/-- Sort update rows newest first. -/
def sortDescUpd : List UpdateRow → List UpdateRow
  | [] => []
  | x :: xs => insertDescUpd x (sortDescUpd xs)

/-- The join underlying `listRecentUpdates`. -/
def joinUpdates (db : DB) : List UpdateRow :=
  db.updates.filterMap (fun u =>
    (getProjectById db u.projectId).map (fun p =>
      { id := u.id, projectId := u.projectId, type := u.type,
        text := u.text, createdAt := u.createdAt, projectName := p.name }))

/-- `listRecentUpdates(limit)` (`db.ts`). -/
def listRecentUpdates (db : DB) (limit : Nat) : List UpdateRow :=
  (sortDescUpd (joinUpdates db)).take limit

/-- `addTask({projectId, title, status?})` (`db.ts`): INSERT with default
status `todo` and `createdAt = updatedAt = now`. -/
def addTask (st : StoreState) (projectId title : String)
    (status : Option TaskStatus) (now : Nat) (tid : String) :
    Except String (StoreState × Task) :=
  if st.db.tasks.any (fun t => decide (t.id = tid)) then
    .error "UNIQUE constraint failed: tasks.id"
  else
    let t : Task :=
      { id := tid, projectId := projectId, title := title,
        status := status.getD .todo, createdAt := now, updatedAt := now }
    .ok (execDb st (fun db => { db with tasks := db.tasks ++ [t] }), t)

/-- A patch for `updateTask({id, status?, title?})`. -/
structure TaskPatch where
  id : String
  status : Option TaskStatus
  title : Option String
deriving DecidableEq, Repr

/-- Modelled from the spec: the auto-activity block that `db.ts` adds to
`updateTask` (the shipped `db.ts` is not among the source copies; the
spec requires `task_started` exactly on a transition into `doing` and
`task_completed` exactly on a transition into `done`, nothing for any
other transition or for a no-status-change call, with the task's title
as detail). -/
def taskStatusActivity (task updated : Task) (patch : TaskPatch)
    (slot : LogSlot) : List ActivityEntry :=
  match patch.status with
  | some s =>
    if s ≠ task.status then
      if s = .doing then
        [{ id := slot.aid, projectId := some task.projectId,
           source := .human, action := "task_started",
           detail := some updated.title, createdAt := slot.time }]
      else if s = .done then
        [{ id := slot.aid, projectId := some task.projectId,
           source := .human, action := "task_completed",
           detail := some updated.title, createdAt := slot.time }]
      else []
    else []
  | none => []

/-- The merged task row `{ ...task, title, status, updatedAt: now }`. -/
def mergeTask (task : Task) (patch : TaskPatch) (now : Nat) : Task :=
  { task with title := patch.title.getD task.title,
              status := patch.status.getD task.status,
              updatedAt := now }

/-- `updateTask({id, status?, title?})` (`db.ts`): fails when the id
matches no row; merges, refreshes `updatedAt`, UPDATEs and persists,
then (auto-activity, modelled from the spec) logs a transition into
`doing` or `done`. -/
def updateTask (st : StoreState) (patch : TaskPatch) (now : Nat)
    (slot : LogSlot) : Except String (StoreState × Task) :=
  match st.db.tasks.find? (fun t => decide (t.id = patch.id)) with
  | none => .error "Task not found"
  | some task =>
      List.foldlM insertActivity
        (execDb st (fun db =>
          { db with tasks :=
              db.tasks.map (fun t =>
                if t.id = (mergeTask task patch now).id
                then mergeTask task patch now else t) }))
        (taskStatusActivity task (mergeTask task patch now) patch slot)
      >>= fun s => .ok (s, mergeTask task patch now)

/-- `listQueue()` ordering: stable ascending insertion by `rank`. -/
def insertAscQueue (x : QueueItem) : List QueueItem → List QueueItem
  | [] => [x]
  | y :: ys => if x.rank < y.rank then x :: y :: ys
               else y :: insertAscQueue x ys

/-- Sort queue items by ascending rank. -/
def sortAscQueue : List QueueItem → List QueueItem
  | [] => []
  | x :: xs => insertAscQueue x (sortAscQueue xs)

/-- `listQueue()` (`db.ts`): pending/in_progress items by ascending rank. -/
def listQueue (db : DB) : List QueueItem :=
  sortAscQueue (db.queue.filter (fun q =>
    decide (q.status = .pending ∨ q.status = .in_progress)))

/-- SQL `SELECT MAX(rank) FROM queue`: `none` on an empty table. -/
def maxRank : List QueueItem → Option Int
  | [] => none
  | q :: qs =>
    match maxRank qs with
    | none => some q.rank
    | some m => some (max q.rank m)

/-- The queue row built by one `addQueueItem` call: an omitted rank
becomes `1 + (MAX(rank) over the whole queue table, defaulting to 0 when
the table is empty)`; status defaults to `pending` and source to
`human`. -/
def newQueueItem (st : StoreState) (projectId : Option String)
    (instruction : String) (rank : Option Int) (source : Option QueueSource)
    (now : Nat) (qid : String) : QueueItem :=
  { id := qid, projectId := projectId, instruction := instruction,
    rank := match rank with
            | some r => r
            | none => (maxRank st.db.queue).getD 0 + 1,
    status := .pending, source := source.getD .human,
    createdAt := now, updatedAt := now }

/-- `addQueueItem({projectId?, instruction, rank?, source?})` (`db.ts`). -/
def addQueueItem (st : StoreState) (projectId : Option String)
    (instruction : String) (rank : Option Int) (source : Option QueueSource)
    (now : Nat) (qid : String) : Except String (StoreState × QueueItem) :=
  if st.db.queue.any (fun q => decide (q.id = qid)) then
    .error "UNIQUE constraint failed: queue.id"
  else
    .ok (execDb st (fun db =>
      { db with queue :=
          db.queue ++ [newQueueItem st projectId instruction rank source now qid] }),
      newQueueItem st projectId instruction rank source now qid)

/-- A patch for `updateQueueItem({id, status?, instruction?, rank?})`. -/
structure QueuePatch where
  id : String
  status : Option QueueStatus
  instruction : Option String
  rank : Option Int
deriving DecidableEq, Repr

/-- Modelled from the spec: the auto-activity block that `db.ts` adds to
`updateQueueItem` (the shipped `db.ts` is not among the source copies;
the spec requires `queue_picked` exactly on a transition into
`in_progress` and `queue_completed` exactly on a transition into
`completed`, nothing for any other transition — e.g. into `skipped` —
or for a no-status-change call, with the prior instruction text as
detail and the item's own source). -/
def queueStatusActivity (existing : QueueItem) (patch : QueuePatch)
    (slot : LogSlot) : List ActivityEntry :=
  match patch.status with
  | some s =>
    if s ≠ existing.status then
      if s = .in_progress then
        [{ id := slot.aid, projectId := existing.projectId,
           source := existing.source, action := "queue_picked",
           detail := some existing.instruction, createdAt := slot.time }]
      else if s = .completed then
        [{ id := slot.aid, projectId := existing.projectId,
           source := existing.source, action := "queue_completed",
           detail := some existing.instruction, createdAt := slot.time }]
      else []
    else []
  | none => []

/-- The merged queue row with every provided patch field overwriting. -/
def mergeQueueItem (existing : QueueItem) (patch : QueuePatch) (now : Nat) :
    QueueItem :=
  { existing with status := patch.status.getD existing.status,
                  instruction := patch.instruction.getD existing.instruction,
                  rank := patch.rank.getD existing.rank,
                  updatedAt := now }

/-- `updateQueueItem({id, status?, instruction?, rank?})` (`db.ts`):
fails when the id matches no row; any provided field overwrites,
`updatedAt` is refreshed, then (auto-activity, modelled from the spec)
a transition into `in_progress` or `completed` is logged. -/
def updateQueueItem (st : StoreState) (patch : QueuePatch) (now : Nat)
    (slot : LogSlot) : Except String (StoreState × QueueItem) :=
  match st.db.queue.find? (fun q => decide (q.id = patch.id)) with
  | none => .error "Queue item not found"
  | some existing =>
      List.foldlM insertActivity
        (execDb st (fun db =>
          { db with queue :=
              db.queue.map (fun q =>
                if q.id = (mergeQueueItem existing patch now).id
                then mergeQueueItem existing patch now else q) }))
        (queueStatusActivity existing patch slot)
      >>= fun s => .ok (s, mergeQueueItem existing patch now)

/-- One UPDATE of `reorderQueue`: set `rank` and `updatedAt` on every row
whose id matches (a no-op when none does). -/
def reorderStep (db : DB) (id : String) (r : Int) (t : Nat) : DB :=
  { db with queue := db.queue.map (fun q =>
      if q.id = id then { q with rank := r, updatedAt := t } else q) }

/-- The `forEach` loop of `reorderQueue(ids)`: the id at 0-based index
`i` receives rank `i + 1`; each UPDATE carries its own `Date.now()`
read and persists. -/
def reorderQueueGo (st : StoreState) : List (String × Nat) → Int → StoreState
  | [], _ => st
  | (id, t) :: rest, i =>
      reorderQueueGo (execDb st (fun db => reorderStep db id i t)) rest (i + 1)

/-- `reorderQueue(ids)` (`db.ts`). -/
def reorderQueue (st : StoreState) (ids : List (String × Nat)) : StoreState :=
  reorderQueueGo st ids 1

/-- `deleteQueueItem(id)` (`db.ts`): unconditional DELETE, then persist;
there is no existence check and a DELETE matching no row throws nothing. -/
def deleteQueueItem (st : StoreState) (id : String) : StoreState :=
  execDb st (fun db =>
    { db with queue := db.queue.filter (fun q => decide (q.id ≠ id)) })

/-- `getCronSnapshot(jobId)` (`db.ts`). -/
def getCronSnapshot (db : DB) (jobId : String) : Option CronSnapshot :=
  db.cronSnapshots.find? (fun s => decide (s.jobId = jobId))

/-- `upsertCronSnapshot({jobId, lastStatus, lastError?})` (`db.ts`):
UPDATE the existing row for `jobId` (every matching row) or INSERT a new
one; either way `lastSeenAt` becomes the current time. -/
def upsertCronSnapshot (st : StoreState) (jobId lastStatus : String)
    (lastError : Option String) (now : Nat) : StoreState :=
  match getCronSnapshot st.db jobId with
  | some _ =>
      execDb st (fun db =>
        { db with cronSnapshots := db.cronSnapshots.map (fun s =>
            if s.jobId = jobId then
              { jobId := jobId, lastStatus := lastStatus,
                lastError := lastError, lastSeenAt := now }
            else s) })
  | none =>
      execDb st (fun db =>
        { db with cronSnapshots := db.cronSnapshots ++
            [{ jobId := jobId, lastStatus := lastStatus,
               lastError := lastError, lastSeenAt := now }] })

/-- The argument record of `deriveHealth` (`index.ts`): the snapshot's
`lastStatus`/`lastSeenAt` and the job's own `lastAt` run time. -/
structure HealthArgs where
  lastStatus : Option String
  lastSeenAt : Option Int
  lastAt : Option Int
deriving DecidableEq, Repr

/-- The `typeof x === "number" && x > 0` guard of `deriveHealth`. -/
def posTs : Option Int → Option Int
  | some v => if 0 < v then some v else none
  | none => none

/-- `deriveHealth` (`index.ts`): red when the lowercased status is
`error`, `failure` or `failed`; otherwise the timestamp is
`lastSeenAt ?? lastAt` (each only when a positive number) — yellow when
absent or older than 24 hours, else green. -/
def deriveHealth (a : HealthArgs) (now : Int) : ProjectStatus :=
  if asciiLower (a.lastStatus.getD "unknown") = "error" ∨
     asciiLower (a.lastStatus.getD "unknown") = "failure" ∨
     asciiLower (a.lastStatus.getD "unknown") = "failed" then .red
  else
    match (posTs a.lastSeenAt).orElse (fun _ => posTs a.lastAt) with
    | none => .yellow
    | some t => if 24 * 60 * 60 * 1000 < now - t then .yellow else .green

/-- The health classification in the words of the claim: red exactly
when the status is one of `error`/`failure`/`failed`; otherwise yellow
when no timestamp is available or the most recent available timestamp is
older than 24 hours before now; otherwise green. -/
def deriveHealthClaim (a : HealthArgs) (now : Int) : ProjectStatus :=
  if a.lastStatus = some "error" ∨ a.lastStatus = some "failure" ∨
     a.lastStatus = some "failed" then .red
  else
    match posTs a.lastSeenAt, posTs a.lastAt with
    | none, none => .yellow
    | some t, none => if 24 * 60 * 60 * 1000 < now - t then .yellow else .green
    | none, some t => if 24 * 60 * 60 * 1000 < now - t then .yellow else .green
    | some t₁, some t₂ =>
        if 24 * 60 * 60 * 1000 < now - max t₁ t₂ then .yellow else .green

/-- The on-disk file holds exactly the export of the current in-memory
database. -/
def Synced (st : StoreState) : Prop := st.file = some st.db

/-- One mutating repository operation, with all of its `Date.now()`
reads and generated row ids as explicit data. -/
inductive RepoOp
  | createP (name : String) (now : Nat) (id : String)
  | updateP (patch : ProjectPatch) (now : Nat) (slot : LogSlot)
  | addUpd (projectId : String) (ty : UpdateType) (text : String)
      (now : Nat) (uid : String) (slot : LogSlot) (bumpNow : Nat)
      (bumpSlot : LogSlot)
  | addT (projectId title : String) (status : Option TaskStatus)
      (now : Nat) (id : String)
  | updateT (patch : TaskPatch) (now : Nat) (slot : LogSlot)
  | addQ (projectId : Option String) (instruction : String)
      (rank : Option Int) (source : Option QueueSource) (now : Nat)
      (id : String)
  | updateQ (patch : QueuePatch) (now : Nat) (slot : LogSlot)
  | reorderQ (ids : List (String × Nat))
  | deleteQ (id : String)
  | logAct (projectId : Option String) (source : QueueSource)
      (action : String) (detail : Option String) (now : Nat) (aid : String)
  | upsertCron (jobId lastStatus : String) (lastError : Option String)
      (now : Nat)

/-- Run one mutating repository operation against the store (dropping
the returned entity). -/
def applyOp (op : RepoOp) (st : StoreState) : Except String StoreState :=
  match op with
  | .createP name now id => (createProject st name now id).map Prod.fst
  | .updateP patch now slot => (updateProject st patch now slot).map Prod.fst
  | .addUpd pid ty text now uid slot bn bs =>
      (addUpdate st pid ty text now uid slot bn bs).map Prod.fst
  | .addT pid title status now id =>
      (addTask st pid title status now id).map Prod.fst
  | .updateT patch now slot => (updateTask st patch now slot).map Prod.fst
  | .addQ pid instr rank src now id =>
      (addQueueItem st pid instr rank src now id).map Prod.fst
  | .updateQ patch now slot => (updateQueueItem st patch now slot).map Prod.fst
  | .reorderQ ids => .ok (reorderQueue st ids)
  | .deleteQ id => .ok (deleteQueueItem st id)
  | .logAct pid src action detail now aid =>
      (logActivity st pid src action detail now aid).map Prod.fst
  | .upsertCron jobId lastStatus lastError now =>
      .ok (upsertCronSnapshot st jobId lastStatus lastError now)

/-- A sample queue row. -/
def qItem (id : String) (r : Int) : QueueItem :=
  { id := id, projectId := none, instruction := "work on it", rank := r,
    status := .pending, source := .human, createdAt := 10, updatedAt := 10 }

/-- A sample database holding one queue row `q_a`. -/
def w10db : DB := { emptyDB with queue := [qItem "q_a" 1] }

/-- A synced store over `w10db`. -/
def w10st : StoreState := { db := w10db, file := some w10db }

/-- A sample cron snapshot row for job `j1`. -/
def w8snap : CronSnapshot :=
  { jobId := "j1", lastStatus := "success", lastError := none,
    lastSeenAt := 10 }

/-- A database holding the one snapshot `w8snap`. -/
def w8db : DB := { emptyDB with cronSnapshots := [w8snap] }

/-- A synced store over `w8db`. -/
def w8st : StoreState := { db := w8db, file := some w8db }

/-- A sample project row. -/
def sampleProject : Project :=
  { id := "p_1", name := "Alpha", status := .green, objective := none,
    nextAction := none, strategy := none, hypothesis := none,
    constraints := none, success := none, dueDate := none,
    createdAt := 50, updatedAt := 50 }

/-- A sample task row belonging to `sampleProject`, still `todo`. -/
def sampleTask : Task :=
  { id := "t_1", projectId := "p_1", title := "Do thing", status := .todo,
    createdAt := 60, updatedAt := 60 }

/-- A sample database with one project, one task and one queue row. -/
def w1db : DB :=
  { emptyDB with projects := [sampleProject], tasks := [sampleTask],
                 queue := [qItem "q_a" 1] }

/-- A synced store over `w1db`. -/
def w1st : StoreState := { db := w1db, file := some w1db }

/-- The task patch "move `t_1` to doing". -/
def w1tpatch : TaskPatch := { id := "t_1", status := some .doing, title := none }

/-- The store after `updateTask` with `w1tpatch`. -/
def w1tfin : StoreState :=
  execDb (execDb w1st (fun db =>
      { db with tasks := db.tasks.map (fun x =>
          if x.id = (mergeTask sampleTask w1tpatch 70).id
          then mergeTask sampleTask w1tpatch 70 else x) }))
    (fun db => { db with activity := (db.activity ++
        taskStatusActivity sampleTask (mergeTask sampleTask w1tpatch 70)
          w1tpatch ⟨70, "a_1"⟩) })

/-- The queue patch "complete `q_a`". -/
def w1qpatch : QueuePatch :=
  { id := "q_a", status := some .completed, instruction := none, rank := none }

/-- The store after `updateQueueItem` with `w1qpatch`. -/
def w1qfin : StoreState :=
  execDb (execDb w1st (fun db =>
      { db with queue := db.queue.map (fun x =>
          if x.id = (mergeQueueItem (qItem "q_a" 1) w1qpatch 71).id
          then mergeQueueItem (qItem "q_a" 1) w1qpatch 71 else x) }))
    (fun db => { db with activity := (db.activity ++
        queueStatusActivity (qItem "q_a" 1) w1qpatch ⟨71, "a_2"⟩) })

/-- The store after a no-op `updateProject` patch on `p_1`. -/
def w1pfin : StoreState :=
  execDb w1st (fun db =>
    { db with projects := db.projects.map (fun x =>
        if x.id = (mergeProject sampleProject (idOnlyPatch "p_1") 72).id
        then mergeProject sampleProject (idOnlyPatch "p_1") 72 else x) })

/-- The rank assignment described by the claim for `reorderQueue(ids)`:
the item whose id sits at 1-based position `i` gets rank `i` and that
entry's time as `updatedAt`; an item matching no entry is returned
unchanged. -/
def reorderSpecItem : List (String × Nat) → Int → QueueItem → QueueItem
  | [], _, q => q
  | (id, t) :: rest, i, q =>
      if q.id = id then { q with rank := i, updatedAt := t }
      else reorderSpecItem rest (i + 1) q

/-- A database whose queue holds exactly the three pending items
`q_a`, `q_b`, `q_c` with ranks 1, 2, 3. -/
def c7db : DB :=
  { emptyDB with queue := [qItem "q_a" 1, qItem "q_b" 2, qItem "q_c" 3] }

/-- A synced store over `c7db`. -/
def c7st : StoreState := { db := c7db, file := some c7db }

/-- The explicit clock/id inputs of one `addUpdate` call in a sequence:
`now` is the initial `Date.now()` read (the update row's `createdAt`),
`uid` the generated update id, `slot` the `update_added` log slot,
`bumpNow` the separate `Date.now()` read performed inside the
`updateProject` bump, and `bumpSlot` that call's (unused) log slot. -/
structure UpdCall where
  ty : UpdateType
  text : String
  now : Nat
  uid : String
  slot : LogSlot
  bumpNow : Nat
  bumpSlot : LogSlot
deriving DecidableEq, Repr

/-- Run a sequence of `addUpdate` calls against one project id. -/
def runAddUpdates : StoreState → String → List UpdCall → Except String StoreState
  | st, _, [] => .ok st
  | st, pid, c :: cs =>
      addUpdate st pid c.ty c.text c.now c.uid c.slot c.bumpNow c.bumpSlot >>=
        fun r => runAddUpdates r.fst pid cs

/-- The bump time of the last call of the list, defaulting to `d`. -/
def lastBump (d : Nat) : List UpdCall → Nat
  | [] => d
  | c :: cs => lastBump c.bumpNow cs

/-- A database holding the one project `sampleProject` (`Alpha`). -/
def prdb : DB := { emptyDB with projects := [sampleProject] }

/-- A synced store over `prdb`. -/
def prst : StoreState := { db := prdb, file := some prdb }

/-- One `addUpdate` call whose two clock reads straddle a millisecond
tick: the update row is stamped 100 but the project bump reads 101. -/
def c5call : UpdCall :=
  { ty := .note, text := "x", now := 100, uid := "u_1",
    slot := ⟨100, "a_1"⟩, bumpNow := 101, bumpSlot := ⟨101, "a_2"⟩ }

/-- One `addUpdate` call whose clock reads all fall in millisecond 100. -/
def c5same : UpdCall :=
  { ty := .note, text := "x", now := 100, uid := "u_1",
    slot := ⟨100, "a_1"⟩, bumpNow := 100, bumpSlot := ⟨100, "a_2"⟩ }

/-- The store produced by running `c5same` against `prst`. -/
def c5fin : StoreState :=
  execDb (execDb (execDb prst (fun db =>
      { db with updates := db.updates ++ [mkUpdateRow "u_1" "p_1" .note "x" 100] }))
    (fun db =>
      { db with activity := db.activity ++ [updateAddedEntry "p_1" .note "x" ⟨100, "a_1"⟩] }))
    (fun db =>
      { db with projects := db.projects.map (fun x =>
          if x.id = (mergeProject sampleProject (idOnlyPatch "p_1") 100).id
          then mergeProject sampleProject (idOnlyPatch "p_1") 100 else x) })

theorem synced_execDb (st : StoreState) (f : DB → DB) : Synced (execDb st f) :=
  rfl

theorem synced_of_insertActivity {st st' : StoreState} {e : ActivityEntry}
    (h : insertActivity st e = .ok st') : Synced st' := by
  unfold insertActivity at h
  split at h
  · exact Except.noConfusion h
  · cases h
    rfl

theorem synced_of_foldlM_insertActivity :
    ∀ (l : List ActivityEntry) (st st' : StoreState), Synced st →
      List.foldlM insertActivity st l = .ok st' → Synced st'
  | [], st, st', hs, h => by
      simp only [List.foldlM_nil, pure, Except.pure] at h
      cases h
      exact hs
  | e :: l, st, st', hs, h => by
      simp only [List.foldlM_cons] at h
      cases hi : insertActivity st e with
      | error s => rw [hi] at h; exact Except.noConfusion h
      | ok st₁ =>
          rw [hi] at h
          simp only [bind, Except.bind] at h
          exact synced_of_foldlM_insertActivity l st₁ st'
            (synced_of_insertActivity hi) h

theorem bind_ok {α β : Type} {e : Except String α} {k : α → Except String β}
    {z : β} (h : (e >>= k) = .ok z) : ∃ s, e = .ok s ∧ k s = .ok z := by
  cases e with
  | error s =>
      simp only [bind, Except.bind] at h
      exact Except.noConfusion h
  | ok s =>
      refine ⟨s, rfl, ?_⟩
      simpa only [bind, Except.bind] using h

theorem synced_of_updateProjectGo {st : StoreState} {existing updated : Project}
    {slot : LogSlot} {r : StoreState × Project}
    (h : updateProjectGo st existing updated slot = .ok r) : Synced r.fst := by
  unfold updateProjectGo at h
  split at h
  · exact Except.noConfusion h
  · obtain ⟨s, hf, hk⟩ := bind_ok h
    simp only [Except.ok.injEq] at hk
    rw [← hk]
    exact synced_of_foldlM_insertActivity _ _ _ (synced_execDb _ _) hf

theorem synced_of_updateProject {st : StoreState} {patch : ProjectPatch}
    {now : Nat} {slot : LogSlot} {r : StoreState × Project}
    (h : updateProject st patch now slot = .ok r) : Synced r.fst := by
  unfold updateProject at h
  cases hg : getProjectById st.db patch.id with
  | none => rw [hg] at h; exact Except.noConfusion h
  | some existing =>
      rw [hg] at h
      exact synced_of_updateProjectGo h

theorem synced_of_logActivity {st : StoreState} {projectId : Option String}
    {source : QueueSource} {action : String} {detail : Option String}
    {now : Nat} {aid : String} {r : StoreState × ActivityEntry}
    (h : logActivity st projectId source action detail now aid = .ok r) :
    Synced r.fst := by
  unfold logActivity at h
  obtain ⟨s, hins, hk⟩ := bind_ok h
  simp only [Except.ok.injEq] at hk
  rw [← hk]
  exact synced_of_insertActivity hins

theorem synced_of_bumpProject {st : StoreState} {projectId : String}
    {bumpNow : Nat} {bumpSlot : LogSlot} {s : StoreState}
    (hs : Synced st)
    (h : bumpProject st projectId bumpNow bumpSlot = .ok s) : Synced s := by
  unfold bumpProject at h
  cases hg : getProjectById st.db projectId with
  | some proj =>
      rw [hg] at h
      obtain ⟨rp, hup, hk⟩ := bind_ok h
      simp only [Except.ok.injEq] at hk
      rw [← hk]
      exact synced_of_updateProject hup
  | none =>
      rw [hg] at h
      simp only [Except.ok.injEq] at h
      rw [← h]
      exact hs

theorem synced_of_addUpdate {st : StoreState} {projectId : String}
    {ty : UpdateType} {text : String} {now : Nat} {uid : String}
    {slot : LogSlot} {bumpNow : Nat} {bumpSlot : LogSlot}
    {r : StoreState × Update}
    (h : addUpdate st projectId ty text now uid slot bumpNow bumpSlot
          = .ok r) : Synced r.fst := by
  unfold addUpdate at h
  split at h
  · exact Except.noConfusion h
  · obtain ⟨s₁, hins, h₂⟩ := bind_ok h
    obtain ⟨s₂, hbump, hk⟩ := bind_ok h₂
    simp only [Except.ok.injEq] at hk
    rw [← hk]
    exact synced_of_bumpProject (synced_of_insertActivity hins) hbump

theorem synced_of_updateTask {st : StoreState} {patch : TaskPatch}
    {now : Nat} {slot : LogSlot} {r : StoreState × Task}
    (h : updateTask st patch now slot = .ok r) : Synced r.fst := by
  unfold updateTask at h
  cases hg : st.db.tasks.find? (fun t => decide (t.id = patch.id)) with
  | none => rw [hg] at h; exact Except.noConfusion h
  | some task =>
      rw [hg] at h
      obtain ⟨s, hf, hk⟩ := bind_ok h
      simp only [Except.ok.injEq] at hk
      rw [← hk]
      exact synced_of_foldlM_insertActivity _ _ _ (synced_execDb _ _) hf

theorem synced_of_updateQueueItem {st : StoreState} {patch : QueuePatch}
    {now : Nat} {slot : LogSlot} {r : StoreState × QueueItem}
    (h : updateQueueItem st patch now slot = .ok r) : Synced r.fst := by
  unfold updateQueueItem at h
  cases hg : st.db.queue.find? (fun q => decide (q.id = patch.id)) with
  | none => rw [hg] at h; exact Except.noConfusion h
  | some existing =>
      rw [hg] at h
      obtain ⟨s, hf, hk⟩ := bind_ok h
      simp only [Except.ok.injEq] at hk
      rw [← hk]
      exact synced_of_foldlM_insertActivity _ _ _ (synced_execDb _ _) hf

theorem synced_of_reorderQueueGo :
    ∀ (l : List (String × Nat)) (st : StoreState) (i : Int), Synced st →
      Synced (reorderQueueGo st l i)
  | [], st, i, hs => hs
  | (id, t) :: rest, st, i, hs =>
      synced_of_reorderQueueGo rest _ (i + 1) (synced_execDb _ _)

theorem map_fst_ok {α : Type} {e : Except String (StoreState × α)}
    {st' : StoreState} (h : e.map Prod.fst = .ok st') :
    ∃ x, e = .ok (st', x) := by
  cases e with
  | error s => exact Except.noConfusion h
  | ok p =>
      simp only [Except.map, Except.ok.injEq] at h
      exact ⟨p.2, by rw [← h]⟩

/-- C2: every mutating repository operation (insert, update or delete
through any repo method) synchronously re-exports the entire in-memory
database over the backing file before returning: starting from a store
whose file holds the export of its in-memory database, any completed
operation leaves the file holding the export of the resulting in-memory
database, so the file is never more than one mutation stale and any
later read (a function of the in-memory database, which the file now
mirrors) observes the write. -/
theorem C2_mutations_synchronously_persist (op : RepoOp)
    (st st' : StoreState) (hsync : Synced st)
    (h : applyOp op st = .ok st') : Synced st' := by
  cases op with
  | createP name now id =>
      simp only [applyOp] at h
      obtain ⟨x, hx⟩ := map_fst_ok h
      unfold createProject at hx
      split at hx
      · exact Except.noConfusion hx
      · split at hx
        · exact Except.noConfusion hx
        · simp only [Except.ok.injEq, Prod.mk.injEq] at hx
          rw [← hx.1]
          exact synced_execDb _ _
  | updateP patch now slot =>
      simp only [applyOp] at h
      obtain ⟨x, hx⟩ := map_fst_ok h
      exact synced_of_updateProject hx
  | addUpd pid ty text now uid slot bn bs =>
      simp only [applyOp] at h
      obtain ⟨x, hx⟩ := map_fst_ok h
      exact synced_of_addUpdate hx
  | addT pid title status now id =>
      simp only [applyOp] at h
      obtain ⟨x, hx⟩ := map_fst_ok h
      unfold addTask at hx
      split at hx
      · exact Except.noConfusion hx
      · simp only [Except.ok.injEq, Prod.mk.injEq] at hx
        rw [← hx.1]
        exact synced_execDb _ _
  | updateT patch now slot =>
      simp only [applyOp] at h
      obtain ⟨x, hx⟩ := map_fst_ok h
      exact synced_of_updateTask hx
  | addQ pid instr rank src now id =>
      simp only [applyOp] at h
      obtain ⟨x, hx⟩ := map_fst_ok h
      unfold addQueueItem at hx
      split at hx
      · exact Except.noConfusion hx
      · simp only [Except.ok.injEq, Prod.mk.injEq] at hx
        rw [← hx.1]
        exact synced_execDb _ _
  | updateQ patch now slot =>
      simp only [applyOp] at h
      obtain ⟨x, hx⟩ := map_fst_ok h
      exact synced_of_updateQueueItem hx
  | reorderQ ids =>
      simp only [applyOp, Except.ok.injEq] at h
      rw [← h]
      exact synced_of_reorderQueueGo ids st 1 hsync
  | deleteQ id =>
      simp only [applyOp, Except.ok.injEq] at h
      rw [← h]
      exact synced_execDb _ _
  | logAct pid src action detail now aid =>
      simp only [applyOp] at h
      obtain ⟨x, hx⟩ := map_fst_ok h
      exact synced_of_logActivity hx
  | upsertCron jobId lastStatus lastError now =>
      simp only [applyOp, Except.ok.injEq] at h
      rw [← h]
      unfold upsertCronSnapshot
      split
      · exact synced_execDb _ _
      · exact synced_execDb _ _

/-- Witness for C2: a freshly opened empty store is synced, and a
concrete mutation (deleting a queue id) leaves it synced. -/
theorem C2_mutations_synchronously_persist_witness :
    Synced (openDb none) ∧ Synced (deleteQueueItem (openDb none) "q_x") :=
  ⟨rfl, C2_mutations_synchronously_persist (.deleteQ "q_x") (openDb none)
    (deleteQueueItem (openDb none) "q_x") rfl rfl⟩

theorem map_ite_id_of_no_match :
    ∀ (l : List QueueItem) (id : String) (f : QueueItem → QueueItem),
      (∀ q ∈ l, q.id ≠ id) →
      l.map (fun q => if q.id = id then f q else q) = l
  | [], _, _, _ => rfl
  | x :: xs, id, f, h => by
      have hx : x.id ≠ id := h x (List.mem_cons_self x xs)
      simp only [List.map_cons, if_neg hx,
        map_ite_id_of_no_match xs id f
          (fun q hq => h q (List.mem_cons_of_mem x hq))]

theorem filter_ne_id_of_no_match :
    ∀ (l : List QueueItem) (id : String), (∀ q ∈ l, q.id ≠ id) →
      l.filter (fun q => decide (q.id ≠ id)) = l
  | [], _, _ => rfl
  | x :: xs, id, h => by
      have hx : x.id ≠ id := h x (List.mem_cons_self x xs)
      simp only [List.filter_cons, decide_eq_true hx, if_pos trivial,
        List.cons.injEq, true_and]
      exact filter_ne_id_of_no_match xs id
        (fun q hq => h q (List.mem_cons_of_mem x hq))

theorem reorderStep_no_match (db : DB) (id : String) (i : Int) (t : Nat)
    (h : ∀ q ∈ db.queue, q.id ≠ id) : reorderStep db id i t = db := by
  unfold reorderStep
  rw [map_ite_id_of_no_match db.queue id _ h]

theorem reorderQueueGo_db_congr :
    ∀ (l : List (String × Nat)) (i : Int) (st₁ st₂ : StoreState),
      st₁.db = st₂.db →
      (reorderQueueGo st₁ l i).db = (reorderQueueGo st₂ l i).db
  | [], _, _, _, h => h
  | (id, t) :: rest, i, st₁, st₂, h => by
      apply reorderQueueGo_db_congr rest (i + 1)
      show reorderStep st₁.db id i t = reorderStep st₂.db id i t
      rw [h]

/-- C10: `deleteQueueItem` and `reorderQueue` are total — a DELETE or
UPDATE matching no row throws nothing (unlike the update-by-id methods,
which reject a missing id) — and an id matching no queue row is silently
ignored: `deleteQueueItem` of an unknown id leaves the database exactly
as it was, and a `reorderQueue` entry whose id matches no row leaves the
loop's effect on the database identical to the loop without that entry
(its successors still receive their position-based ranks). -/
theorem C10_unknown_ids_silently_ignored :
    (∀ (st : StoreState) (id : String),
        (∀ q ∈ st.db.queue, q.id ≠ id) →
        (deleteQueueItem st id).db = st.db) ∧
    (∀ (st : StoreState) (id : String) (t : Nat)
        (rest : List (String × Nat)) (i : Int),
        (∀ q ∈ st.db.queue, q.id ≠ id) →
        (reorderQueueGo st ((id, t) :: rest) i).db =
          (reorderQueueGo st rest (i + 1)).db) := by
  constructor
  · intro st id h
    have hstep : (deleteQueueItem st id).db =
        { st.db with queue := st.db.queue.filter (fun q => decide (q.id ≠ id)) } :=
      rfl
    rw [hstep, filter_ne_id_of_no_match st.db.queue id h]
  · intro st id t rest i h
    show (reorderQueueGo (execDb st fun db => reorderStep db id i t)
            rest (i + 1)).db = _
    apply reorderQueueGo_db_congr
    show reorderStep st.db id i t = st.db
    exact reorderStep_no_match st.db id i t h

/-- Witness for C10: deleting the unknown id `q_z`, or reordering with
it, changes nothing. -/
theorem C10_unknown_ids_silently_ignored_witness :
    (deleteQueueItem w10st "q_z").db = w10st.db ∧
    (reorderQueueGo w10st [("q_z", 99)] 1).db =
      (reorderQueueGo w10st [] 2).db :=
  ⟨C10_unknown_ids_silently_ignored.1 w10st "q_z" (by decide),
   C10_unknown_ids_silently_ignored.2 w10st "q_z" 99 [] 1 (by decide)⟩

theorem maxRank_append_single :
    ∀ (l : List QueueItem) (q : QueueItem),
      ∃ m, maxRank (l ++ [q]) = some m ∧ q.rank ≤ m
  | [], q => ⟨q.rank, rfl, le_refl _⟩
  | x :: xs, q => by
      obtain ⟨m, hm, hle⟩ := maxRank_append_single xs q
      refine ⟨max x.rank m, ?_, le_trans hle (le_max_right _ _)⟩
      show (match maxRank (xs ++ [q]) with
            | none => some x.rank
            | some m => some (max x.rank m)) = some (max x.rank m)
      rw [hm]

/-- C6: `addQueueItem` without an explicit rank assigns
`1 + max(rank over all existing queue rows, defaulting to 0 when the
table is empty)`; the first item in an empty queue gets rank 1; the
created item defaults to status `pending` and source `human`; and a
second rank-omitted addition immediately after (whatever its other
fields) receives a strictly greater rank. -/
theorem C6_addQueueItem_auto_rank (st : StoreState) (pid : Option String)
    (instr : String) (src : Option QueueSource) (now : Nat) (qid : String)
    (st₁ : StoreState) (item : QueueItem)
    (h : addQueueItem st pid instr none src now qid = .ok (st₁, item)) :
    item.rank = (maxRank st.db.queue).getD 0 + 1 ∧
    (st.db.queue = [] → item.rank = 1) ∧
    item.status = .pending ∧
    item.source = src.getD .human ∧
    st₁.db.queue = st.db.queue ++ [item] ∧
    (∀ pid₂ instr₂ src₂ now₂ qid₂ st₂ item₂,
      addQueueItem st₁ pid₂ instr₂ none src₂ now₂ qid₂ = .ok (st₂, item₂) →
      item.rank < item₂.rank) := by
  unfold addQueueItem at h
  split at h
  · exact Except.noConfusion h
  · simp only [Except.ok.injEq, Prod.mk.injEq] at h
    obtain ⟨hst, hitem⟩ := h
    subst hst
    subst hitem
    refine ⟨rfl, ?_, rfl, rfl, rfl, ?_⟩
    · intro hempty
      show ((maxRank st.db.queue).getD 0 + 1 : Int) = 1
      rw [hempty]
      rfl
    · intro pid₂ instr₂ src₂ now₂ qid₂ st₂ item₂ h₂
      unfold addQueueItem at h₂
      split at h₂
      · exact Except.noConfusion h₂
      · simp only [Except.ok.injEq, Prod.mk.injEq] at h₂
        obtain ⟨hst₂, hitem₂⟩ := h₂
        subst hst₂
        subst hitem₂
        obtain ⟨m, hm, hle⟩ := maxRank_append_single st.db.queue
          (newQueueItem st pid instr none src now qid)
        show (newQueueItem st pid instr none src now qid).rank <
          (maxRank (st.db.queue ++
            [newQueueItem st pid instr none src now qid])).getD 0 + 1
        rw [hm]
        simp only [Option.getD_some]
        have hr : (newQueueItem st pid instr none src now qid).rank ≤ m := hle
        omega

/-- Witness for C6: the first rank-omitted addition to an empty store
gets rank 1, pending, human; a second one gets a strictly greater rank. -/
theorem C6_addQueueItem_auto_rank_witness :
    (qItem "q_1" 1).rank = (maxRank (openDb none).db.queue).getD 0 + 1 ∧
    (qItem "q_1" 1).rank = 1 ∧
    (qItem "q_1" 1).status = .pending ∧
    (qItem "q_1" 1).source = QueueSource.human := by
  have h := C6_addQueueItem_auto_rank (openDb none) none "work on it" none 10
    "q_1" (execDb (openDb none) fun db => { db with queue := db.queue ++ [qItem "q_1" 1] })
    (qItem "q_1" 1) rfl
  exact ⟨h.1, h.2.1 rfl, h.2.2.1, h.2.2.2.1⟩

theorem map_jobId_overwrite (l : List CronSnapshot) (jobId : String)
    (row : CronSnapshot) (hrow : row.jobId = jobId) :
    (l.map (fun s => if s.jobId = jobId then row else s)).map
        CronSnapshot.jobId = l.map CronSnapshot.jobId := by
  induction l with
  | nil => rfl
  | cons x xs ih =>
      simp only [List.map_cons, List.cons.injEq]
      constructor
      · by_cases hx : x.jobId = jobId
        · rw [if_pos hx, hrow, hx]
        · rw [if_neg hx]
      · exact ih

/-- C8: `upsertCronSnapshot` is a keyed upsert: it preserves
at-most-one-row-per-jobId (so any sequence of calls starting from a
deduplicated table keeps it deduplicated); a call for an already-present
jobId overwrites that row's `lastStatus` and `lastError` with the
supplied values; a call for an absent jobId appends the one new row; and
in both cases the row's `lastSeenAt` becomes the current time. -/
theorem C8_upsertCronSnapshot_keyed_upsert (st : StoreState)
    (jobId lastStatus : String) (lastError : Option String) (now : Nat) :
    ((st.db.cronSnapshots.map CronSnapshot.jobId).Nodup →
      (((upsertCronSnapshot st jobId lastStatus lastError now).db.cronSnapshots.map
          CronSnapshot.jobId).Nodup)) ∧
    (∀ s₀, getCronSnapshot st.db jobId = some s₀ →
      (upsertCronSnapshot st jobId lastStatus lastError now).db.cronSnapshots =
        st.db.cronSnapshots.map (fun s =>
          if s.jobId = jobId then
            { jobId := jobId, lastStatus := lastStatus,
              lastError := lastError, lastSeenAt := now }
          else s)) ∧
    (getCronSnapshot st.db jobId = none →
      (upsertCronSnapshot st jobId lastStatus lastError now).db.cronSnapshots =
        st.db.cronSnapshots ++
          [{ jobId := jobId, lastStatus := lastStatus,
             lastError := lastError, lastSeenAt := now }]) := by
  refine ⟨?_, ?_, ?_⟩
  · intro hnodup
    unfold upsertCronSnapshot
    cases hg : getCronSnapshot st.db jobId with
    | some s₀ =>
        show ((st.db.cronSnapshots.map fun s =>
            if s.jobId = jobId then _ else s).map CronSnapshot.jobId).Nodup
        rw [map_jobId_overwrite st.db.cronSnapshots jobId _ rfl]
        exact hnodup
    | none =>
        show ((st.db.cronSnapshots ++ [_]).map CronSnapshot.jobId).Nodup
        rw [List.map_append]
        rw [List.nodup_append]
        refine ⟨hnodup, List.nodup_singleton _, ?_⟩
        intro a ha hb
        simp only [List.map_cons, List.map_nil, List.mem_singleton] at hb
        subst hb
        unfold getCronSnapshot at hg
        rw [List.find?_eq_none] at hg
        simp only [List.mem_map] at ha
        obtain ⟨s, hs, hsj⟩ := ha
        exact absurd (decide_eq_true hsj) (by simpa using hg s hs)
  · intro s₀ hg
    unfold upsertCronSnapshot
    rw [hg]
    rfl
  · intro hg
    unfold upsertCronSnapshot
    rw [hg]
    rfl

/-- Witness for C8: upserting the present job `j1` keeps the table
deduplicated and overwrites the one row; upserting on an empty store
appends. -/
theorem C8_upsertCronSnapshot_keyed_upsert_witness :
    (((upsertCronSnapshot w8st "j1" "failure" (some "timeout") 20).db.cronSnapshots.map
        CronSnapshot.jobId).Nodup) ∧
    (upsertCronSnapshot w8st "j1" "failure" (some "timeout") 20).db.cronSnapshots =
      [{ jobId := "j1", lastStatus := "failure", lastError := some "timeout",
         lastSeenAt := 20 }] ∧
    (upsertCronSnapshot (openDb none) "j2" "success" none 30).db.cronSnapshots =
      [{ jobId := "j2", lastStatus := "success", lastError := none,
         lastSeenAt := 30 }] := by
  refine ⟨(C8_upsertCronSnapshot_keyed_upsert w8st "j1" "failure"
      (some "timeout") 20).1 (by decide), ?_, ?_⟩
  · rw [(C8_upsertCronSnapshot_keyed_upsert w8st "j1" "failure"
      (some "timeout") 20).2.1 w8snap (by decide)]
    decide
  · rw [(C8_upsertCronSnapshot_keyed_upsert (openDb none) "j2" "success"
      none 30).2.2 (by decide)]
    decide

theorem insertActivity_ok_db {st st' : StoreState} {e : ActivityEntry}
    (h : insertActivity st e = .ok st') :
    st'.db = { st.db with activity := st.db.activity ++ [e] } := by
  unfold insertActivity at h
  split at h
  · exact Except.noConfusion h
  · simp only [Except.ok.injEq] at h
    rw [← h]
    rfl

theorem foldlM_insertActivity_ok_db :
    ∀ (l : List ActivityEntry) (st st' : StoreState),
      List.foldlM insertActivity st l = .ok st' →
      st'.db = { st.db with activity := st.db.activity ++ l }
  | [], st, st', h => by
      simp only [List.foldlM_nil, pure, Except.pure, Except.ok.injEq] at h
      rw [← h, List.append_nil]
  | e :: l, st, st', h => by
      simp only [List.foldlM_cons] at h
      cases hi : insertActivity st e with
      | error s => rw [hi] at h; exact Except.noConfusion h
      | ok st₁ =>
          rw [hi] at h
          simp only [bind, Except.bind] at h
          have h₁ := insertActivity_ok_db hi
          have h₂ := foldlM_insertActivity_ok_db l st₁ st' h
          rw [h₂, h₁]
          simp only [List.append_assoc, List.singleton_append]

theorem updateTask_ok_db {st : StoreState} {patch : TaskPatch} {now : Nat}
    {slot : LogSlot} {st' : StoreState} {t task : Task}
    (hg : st.db.tasks.find? (fun x => decide (x.id = patch.id)) = some task)
    (h : updateTask st patch now slot = .ok (st', t)) :
    st'.db = { st.db with
      tasks := st.db.tasks.map (fun x =>
        if x.id = (mergeTask task patch now).id then mergeTask task patch now else x),
      activity := st.db.activity ++
        taskStatusActivity task (mergeTask task patch now) patch slot } ∧
    t = mergeTask task patch now := by
  unfold updateTask at h
  rw [hg] at h
  obtain ⟨s, hf, hk⟩ := bind_ok h
  simp only [Except.ok.injEq, Prod.mk.injEq] at hk
  obtain ⟨hs, ht⟩ := hk
  subst hs
  refine ⟨?_, ht.symm⟩
  rw [foldlM_insertActivity_ok_db _ _ _ hf]
  rfl

theorem updateQueueItem_ok_db {st : StoreState} {patch : QueuePatch}
    {now : Nat} {slot : LogSlot} {st' : StoreState} {q existing : QueueItem}
    (hg : st.db.queue.find? (fun x => decide (x.id = patch.id)) = some existing)
    (h : updateQueueItem st patch now slot = .ok (st', q)) :
    st'.db = { st.db with
      queue := st.db.queue.map (fun x =>
        if x.id = (mergeQueueItem existing patch now).id
        then mergeQueueItem existing patch now else x),
      activity := st.db.activity ++
        queueStatusActivity existing patch slot } ∧
    q = mergeQueueItem existing patch now := by
  unfold updateQueueItem at h
  rw [hg] at h
  obtain ⟨s, hf, hk⟩ := bind_ok h
  simp only [Except.ok.injEq, Prod.mk.injEq] at hk
  obtain ⟨hs, ht⟩ := hk
  subst hs
  refine ⟨?_, ht.symm⟩
  rw [foldlM_insertActivity_ok_db _ _ _ hf]
  rfl

theorem updateProjectGo_ok_db {st : StoreState} {existing updated : Project}
    {slot : LogSlot} {st' : StoreState} {p : Project}
    (h : updateProjectGo st existing updated slot = .ok (st', p)) :
    st'.db = { st.db with
      projects := st.db.projects.map (fun x =>
        if x.id = updated.id then updated else x),
      activity := st.db.activity ++
        projectStatusActivity existing updated slot } ∧
    p = updated := by
  unfold updateProjectGo at h
  split at h
  · exact Except.noConfusion h
  · obtain ⟨s, hf, hk⟩ := bind_ok h
    simp only [Except.ok.injEq, Prod.mk.injEq] at hk
    obtain ⟨hs, ht⟩ := hk
    subst hs
    refine ⟨?_, ht.symm⟩
    rw [foldlM_insertActivity_ok_db _ _ _ hf]
    rfl

theorem updateProject_ok_db {st : StoreState} {patch : ProjectPatch}
    {now : Nat} {slot : LogSlot} {st' : StoreState} {p P : Project}
    (hg : getProjectById st.db patch.id = some P)
    (h : updateProject st patch now slot = .ok (st', p)) :
    st'.db = { st.db with
      projects := st.db.projects.map (fun x =>
        if x.id = (mergeProject P patch now).id then mergeProject P patch now else x),
      activity := st.db.activity ++
        projectStatusActivity P (mergeProject P patch now) slot } ∧
    p = mergeProject P patch now := by
  unfold updateProject at h
  rw [hg] at h
  exact updateProjectGo_ok_db h

/-- C1: the auto-activity invariant.  For `updateTask`,
`updateQueueItem` and `updateProject` on an existing row: a call that
changes a Task's status to `doing` appends exactly one `task_started`
entry and to `done` exactly one `task_completed` entry; a call that
changes a QueueItem's status to `in_progress` appends exactly one
`queue_picked` entry and to `completed` exactly one `queue_completed`
entry; a call that changes a Project's status to any different value
appends exactly one `status_changed` entry; and any call that changes no
status value (status key absent, or set to its current value — e.g. a
title-only, instruction-only or objective-only edit) appends zero
activity entries, as does a change into a non-activity-worthy value
(Task `todo`; QueueItem `pending`/`skipped`). -/
theorem C1_auto_activity_invariant :
    (∀ (st : StoreState) (patch : TaskPatch) (now : Nat) (slot : LogSlot)
        (st' : StoreState) (t task : Task),
        st.db.tasks.find? (fun x => decide (x.id = patch.id)) = some task →
        updateTask st patch now slot = .ok (st', t) →
        ((patch.status = some .doing → task.status ≠ .doing →
            st'.db.activity = st.db.activity ++
              [{ id := slot.aid, projectId := some task.projectId,
                 source := .human, action := "task_started",
                 detail := some (patch.title.getD task.title),
                 createdAt := slot.time }]) ∧
         (patch.status = some .done → task.status ≠ .done →
            st'.db.activity = st.db.activity ++
              [{ id := slot.aid, projectId := some task.projectId,
                 source := .human, action := "task_completed",
                 detail := some (patch.title.getD task.title),
                 createdAt := slot.time }]) ∧
         ((patch.status = none ∨ patch.status = some task.status) →
            st'.db.activity = st.db.activity) ∧
         (patch.status = some .todo → st'.db.activity = st.db.activity))) ∧
    (∀ (st : StoreState) (patch : QueuePatch) (now : Nat) (slot : LogSlot)
        (st' : StoreState) (q existing : QueueItem),
        st.db.queue.find? (fun x => decide (x.id = patch.id)) = some existing →
        updateQueueItem st patch now slot = .ok (st', q) →
        ((patch.status = some .in_progress → existing.status ≠ .in_progress →
            st'.db.activity = st.db.activity ++
              [{ id := slot.aid, projectId := existing.projectId,
                 source := existing.source, action := "queue_picked",
                 detail := some existing.instruction,
                 createdAt := slot.time }]) ∧
         (patch.status = some .completed → existing.status ≠ .completed →
            st'.db.activity = st.db.activity ++
              [{ id := slot.aid, projectId := existing.projectId,
                 source := existing.source, action := "queue_completed",
                 detail := some existing.instruction,
                 createdAt := slot.time }]) ∧
         ((patch.status = none ∨ patch.status = some existing.status) →
            st'.db.activity = st.db.activity) ∧
         ((patch.status = some .pending ∨ patch.status = some .skipped) →
            st'.db.activity = st.db.activity))) ∧
    (∀ (st : StoreState) (patch : ProjectPatch) (now : Nat) (slot : LogSlot)
        (st' : StoreState) (p P : Project),
        getProjectById st.db patch.id = some P →
        updateProject st patch now slot = .ok (st', p) →
        ((∀ s, patch.status = some s → s ≠ P.status →
            st'.db.activity = st.db.activity ++
              [{ id := slot.aid, projectId := some P.id, source := .human,
                 action := "status_changed",
                 detail := some (P.status.text ++ " → " ++ s.text),
                 createdAt := slot.time }]) ∧
         ((patch.status = none ∨ patch.status = some P.status) →
            st'.db.activity = st.db.activity))) := by
  refine ⟨?_, ?_, ?_⟩
  · intro st patch now slot st' t task hg h
    obtain ⟨hdb, -⟩ := updateTask_ok_db hg h
    have hact : st'.db.activity = st.db.activity ++
        taskStatusActivity task (mergeTask task patch now) patch slot := by
      rw [hdb]
    refine ⟨?_, ?_, ?_, ?_⟩
    · intro hs hne
      rw [hact]
      simp [taskStatusActivity, mergeTask, hs, Ne.symm hne]
    · intro hs hne
      rw [hact]
      simp [taskStatusActivity, mergeTask, hs, Ne.symm hne]
    · intro hs
      rw [hact]
      cases hs with
      | inl hs => simp [taskStatusActivity, hs]
      | inr hs => simp [taskStatusActivity, hs]
    · intro hs
      rw [hact]
      simp only [taskStatusActivity, hs]
      split
      · simp
      · simp
  · intro st patch now slot st' q existing hg h
    obtain ⟨hdb, -⟩ := updateQueueItem_ok_db hg h
    have hact : st'.db.activity = st.db.activity ++
        queueStatusActivity existing patch slot := by
      rw [hdb]
    refine ⟨?_, ?_, ?_, ?_⟩
    · intro hs hne
      rw [hact]
      simp [queueStatusActivity, hs, Ne.symm hne]
    · intro hs hne
      rw [hact]
      simp [queueStatusActivity, hs, Ne.symm hne]
    · intro hs
      rw [hact]
      cases hs with
      | inl hs => simp [queueStatusActivity, hs]
      | inr hs => simp [queueStatusActivity, hs]
    · intro hs
      rw [hact]
      cases hs with
      | inl hs =>
          simp only [queueStatusActivity, hs]
          split
          · simp
          · simp
      | inr hs =>
          simp only [queueStatusActivity, hs]
          split
          · simp
          · simp
  · intro st patch now slot st' p P hg h
    obtain ⟨hdb, -⟩ := updateProject_ok_db hg h
    have hact : st'.db.activity = st.db.activity ++
        projectStatusActivity P (mergeProject P patch now) slot := by
      rw [hdb]
    refine ⟨?_, ?_⟩
    · intro s hs hne
      rw [hact]
      simp [projectStatusActivity, mergeProject, hs, Ne.symm hne]
    · intro hs
      rw [hact]
      cases hs with
      | inl hs => simp [projectStatusActivity, mergeProject, hs]
      | inr hs => simp [projectStatusActivity, mergeProject, hs]

/-- Witness for C1: moving the sample task to `doing` appends exactly
the one `task_started` entry; completing the sample queue item appends
exactly the one `queue_completed` entry; a status-free project patch
appends nothing. -/
theorem C1_auto_activity_invariant_witness :
    (w1tfin.db.activity = w1st.db.activity ++
      [{ id := "a_1", projectId := some "p_1", source := .human,
         action := "task_started", detail := some "Do thing",
         createdAt := 70 }]) ∧
    (w1qfin.db.activity = w1st.db.activity ++
      [{ id := "a_2", projectId := none, source := .human,
         action := "queue_completed", detail := some "work on it",
         createdAt := 71 }]) ∧
    (w1pfin.db.activity = w1st.db.activity) := by
  refine ⟨?_, ?_, ?_⟩
  · exact (C1_auto_activity_invariant.1 w1st w1tpatch 70 ⟨70, "a_1"⟩ w1tfin
      (mergeTask sampleTask w1tpatch 70) sampleTask (by rfl) (by rfl)).1 rfl
      (by decide)
  · exact (C1_auto_activity_invariant.2.1 w1st w1qpatch 71 ⟨71, "a_2"⟩ w1qfin
      (mergeQueueItem (qItem "q_a" 1) w1qpatch 71) (qItem "q_a" 1) (by rfl)
      (by rfl)).2.1 rfl (by decide)
  · exact (C1_auto_activity_invariant.2.2 w1st (idOnlyPatch "p_1") 72
      ⟨72, "a_3"⟩ w1pfin (mergeProject sampleProject (idOnlyPatch "p_1") 72)
      sampleProject (by rfl) (by rfl)).2 (Or.inl rfl)

theorem any_id_false {α : Type} (f : α → String) (l : List α) (x : String)
    (h : ∀ a ∈ l, f a ≠ x) : (l.any fun a => decide (f a = x)) = false := by
  rw [List.any_eq_false]
  intro a ha
  simpa using h a ha

/-- C3 (amended): `addUpdate` performs no referential check at all; when
`projectId` resolves to no project and the generated ids are fresh, the
call still succeeds, stores the orphan update row (and its
`update_added` activity entry), and merely skips the parent-project
`updatedAt` bump, leaving the projects table untouched. -/
theorem C3_addUpdate_no_referential_check
    (st : StoreState) (pid : String) (ty : UpdateType) (text : String)
    (now : Nat) (uid : String) (slot : LogSlot) (bumpNow : Nat)
    (bumpSlot : LogSlot)
    (hng : getProjectById st.db pid = none)
    (huid : ∀ u ∈ st.db.updates, u.id ≠ uid)
    (haid : ∀ a ∈ st.db.activity, a.id ≠ slot.aid) :
    addUpdate st pid ty text now uid slot bumpNow bumpSlot =
      .ok (execDb (execDb st (fun db =>
            { db with updates := db.updates ++ [mkUpdateRow uid pid ty text now] }))
          (fun db =>
            { db with activity := db.activity ++ [updateAddedEntry pid ty text slot] }),
        mkUpdateRow uid pid ty text now) ∧
    (execDb (execDb st (fun db =>
          { db with updates := db.updates ++ [mkUpdateRow uid pid ty text now] }))
        (fun db =>
          { db with activity := db.activity ++ [updateAddedEntry pid ty text slot] })).db
      = { st.db with
          updates := st.db.updates ++ [mkUpdateRow uid pid ty text now],
          activity := st.db.activity ++ [updateAddedEntry pid ty text slot] } := by
  have hc1 : (st.db.updates.any fun u => decide (u.id = uid)) = false :=
    any_id_false Update.id st.db.updates uid huid
  have hc2 : ((execDb st (fun db =>
      { db with updates := db.updates ++ [mkUpdateRow uid pid ty text now] })).db.activity.any
        fun a => decide (a.id = (updateAddedEntry pid ty text slot).id)) = false := by
    show (st.db.activity.any fun a => decide (a.id = slot.aid)) = false
    exact any_id_false ActivityEntry.id st.db.activity slot.aid haid
  constructor
  · unfold addUpdate
    rw [if_neg (by simp [hc1])]
    have e2 : insertActivity
        (execDb st (fun db =>
          { db with updates := db.updates ++ [mkUpdateRow uid pid ty text now] }))
        (updateAddedEntry pid ty text slot) =
        .ok (execDb (execDb st (fun db =>
            { db with updates := db.updates ++ [mkUpdateRow uid pid ty text now] }))
          (fun db =>
            { db with activity := db.activity ++ [updateAddedEntry pid ty text slot] })) := by
      unfold insertActivity
      rw [if_neg (by simp [hc2])]
    rw [e2]
    simp only [bind, Except.bind]
    have e3 : bumpProject (execDb (execDb st (fun db =>
          { db with updates := db.updates ++ [mkUpdateRow uid pid ty text now] }))
        (fun db =>
          { db with activity := db.activity ++ [updateAddedEntry pid ty text slot] }))
        pid bumpNow bumpSlot =
        .ok (execDb (execDb st (fun db =>
            { db with updates := db.updates ++ [mkUpdateRow uid pid ty text now] }))
          (fun db =>
            { db with activity := db.activity ++ [updateAddedEntry pid ty text slot] })) := by
      unfold bumpProject
      rw [show getProjectById (execDb (execDb st (fun db =>
          { db with updates := db.updates ++ [mkUpdateRow uid pid ty text now] }))
        (fun db =>
          { db with activity := db.activity ++ [updateAddedEntry pid ty text slot] })).db
          pid = none from hng]
    rw [e3]
  · rfl

/-- Counterexample for C3: on an empty store, `addUpdate` with the
unresolvable projectId `p_missing` does not fail — it succeeds and
stores one orphan update row while the projects table stays empty,
contradicting the claim that it raises an error and inserts no row. -/
theorem C3_counterexample :
    (match addUpdate (openDb none) "p_missing" .note "hello" 100 "u_1"
        ⟨100, "a_1"⟩ 101 ⟨101, "a_2"⟩ with
     | .ok r => some (r.fst.db.updates.length, r.fst.db.projects.length,
                      r.snd.projectId)
     | .error _ => none) = some (1, 0, "p_missing") := by
  decide

/-- Witness for C3 (amended): the orphan insert on the concrete empty
store succeeds with exactly the stated database. -/
theorem C3_addUpdate_no_referential_check_witness :
    addUpdate (openDb none) "p_missing" .note "hello" 100 "u_1"
        ⟨100, "a_1"⟩ 101 ⟨101, "a_2"⟩ =
      .ok (execDb (execDb (openDb none) (fun db =>
            { db with updates :=
                db.updates ++ [mkUpdateRow "u_1" "p_missing" .note "hello" 100] }))
          (fun db =>
            { db with activity :=
                db.activity ++ [updateAddedEntry "p_missing" .note "hello" ⟨100, "a_1"⟩] }),
        mkUpdateRow "u_1" "p_missing" .note "hello" 100) :=
  (C3_addUpdate_no_referential_check (openDb none) "p_missing" .note "hello"
    100 "u_1" ⟨100, "a_1"⟩ 101 ⟨101, "a_2"⟩ (by decide) (by decide)
    (by decide)).1

/-- C4 (amended): the uniqueness constraint on project names is the
BINARY (case-sensitive) unique index `idx_projects_name`, so
`createProject` fails exactly on an exact-name (or id) collision and
creates no row then, while a name differing only in case from an
existing project's is accepted; with a fresh name the call succeeds with
status `green`, `createdAt = updatedAt = now`, and appends the one row. -/
theorem C4_createProject_case_sensitive_uniqueness :
    (∀ (st : StoreState) (name : String) (now : Nat) (id : String),
        (∃ p ∈ st.db.projects, p.name = name) →
        ∃ e, createProject st name now id = .error e) ∧
    (∀ (st : StoreState) (name : String) (now : Nat) (id : String),
        (∀ p ∈ st.db.projects, p.name ≠ name) →
        (∀ p ∈ st.db.projects, p.id ≠ id) →
        ∃ st' proj, createProject st name now id = .ok (st', proj) ∧
          proj.status = .green ∧ proj.createdAt = now ∧
          proj.updatedAt = now ∧ proj.name = name ∧
          st'.db = { st.db with projects := st.db.projects ++ [proj] }) := by
  constructor
  · intro st name now id hex
    unfold createProject
    by_cases hid : (st.db.projects.any fun p => decide (p.id = id)) = true
    · rw [if_pos hid]
      exact ⟨_, rfl⟩
    · rw [if_neg hid]
      have hname : (st.db.projects.any fun p => decide (p.name = name)) = true := by
        rw [List.any_eq_true]
        obtain ⟨p, hp, hpn⟩ := hex
        exact ⟨p, hp, by simpa using hpn⟩
      rw [if_pos hname]
      exact ⟨_, rfl⟩
  · intro st name now id hname hid
    refine ⟨execDb st (fun db =>
        { db with projects := db.projects ++ [newProjectRow name now id] }),
      newProjectRow name now id, ?_, rfl, rfl, rfl, rfl, rfl⟩
    unfold createProject
    rw [if_neg (by simp [any_id_false Project.id st.db.projects id hid]),
        if_neg (by simp [any_id_false Project.name st.db.projects name hname])]

/-- Counterexample for C4: with project `Alpha` present, `createProject`
of the case-insensitively equal name `alpha` does not fail — it creates
a second row — contradicting the claim of a case-insensitive uniqueness
failure. -/
theorem C4_counterexample :
    asciiLower "alpha" = asciiLower "Alpha" ∧ "alpha" ≠ "Alpha" ∧
    (match createProject { db := { emptyDB with projects := [sampleProject] },
                           file := some { emptyDB with projects := [sampleProject] } }
        "alpha" 100 "p_2" with
     | .ok r => some (r.fst.db.projects.length, r.snd.name)
     | .error _ => none) = some (2, "alpha") := by
  refine ⟨by decide, by decide, by decide⟩

/-- Witness for C4 (amended): an exact-name collision is rejected, and a
fresh name on an empty store succeeds as a green project with equal
timestamps. -/
theorem C4_createProject_case_sensitive_uniqueness_witness :
    (match createProject { db := { emptyDB with projects := [sampleProject] },
                           file := some { emptyDB with projects := [sampleProject] } }
        "Alpha" 100 "p_9" with
     | .error _ => True
     | .ok _ => False) ∧
    (match createProject (openDb none) "Beta" 100 "p_1" with
     | .ok r => r.snd.status = .green ∧ r.snd.createdAt = r.snd.updatedAt
     | .error _ => False) := by
  constructor
  · obtain ⟨e, he⟩ := C4_createProject_case_sensitive_uniqueness.1
      { db := { emptyDB with projects := [sampleProject] },
        file := some { emptyDB with projects := [sampleProject] } }
      "Alpha" 100 "p_9" ⟨sampleProject, by decide, by decide⟩
    rw [he]
    trivial
  · obtain ⟨st', proj, h, hs, hc, hu, -, -⟩ :=
      C4_createProject_case_sensitive_uniqueness.2 (openDb none) "Beta" 100
        "p_1" (by decide) (by decide)
    rw [h]
    exact ⟨hs, by rw [hc, hu]⟩

/-- C9 (amended): `deriveHealth` returns red exactly when the
case-insensitively lowered status is `error`, `failure` or `failed`;
otherwise the single timestamp it consults is `lastSeenAt` when that is
a positive number — regardless of whether `lastRunAt` is more recent —
falling back to a positive `lastRunAt`, and it returns yellow when
neither is available or the consulted timestamp is more than 24 hours
before now, else green. -/
theorem C9_deriveHealth_prefers_lastSeenAt (a : HealthArgs) (now : Int) :
    (deriveHealth a now = .red ↔
      (asciiLower (a.lastStatus.getD "unknown") = "error" ∨
       asciiLower (a.lastStatus.getD "unknown") = "failure" ∨
       asciiLower (a.lastStatus.getD "unknown") = "failed")) ∧
    (∀ t, ¬(asciiLower (a.lastStatus.getD "unknown") = "error" ∨
            asciiLower (a.lastStatus.getD "unknown") = "failure" ∨
            asciiLower (a.lastStatus.getD "unknown") = "failed") →
      posTs a.lastSeenAt = some t →
      deriveHealth a now =
        (if 24 * 60 * 60 * 1000 < now - t then .yellow else .green)) ∧
    (∀ t, ¬(asciiLower (a.lastStatus.getD "unknown") = "error" ∨
            asciiLower (a.lastStatus.getD "unknown") = "failure" ∨
            asciiLower (a.lastStatus.getD "unknown") = "failed") →
      posTs a.lastSeenAt = none → posTs a.lastAt = some t →
      deriveHealth a now =
        (if 24 * 60 * 60 * 1000 < now - t then .yellow else .green)) ∧
    (¬(asciiLower (a.lastStatus.getD "unknown") = "error" ∨
       asciiLower (a.lastStatus.getD "unknown") = "failure" ∨
       asciiLower (a.lastStatus.getD "unknown") = "failed") →
      posTs a.lastSeenAt = none → posTs a.lastAt = none →
      deriveHealth a now = .yellow) := by
  refine ⟨?_, ?_, ?_, ?_⟩
  · constructor
    · intro h
      by_contra hS
      unfold deriveHealth at h
      rw [if_neg hS] at h
      cases hts : (posTs a.lastSeenAt).orElse (fun _ => posTs a.lastAt) with
      | none => rw [hts] at h; exact ProjectStatus.noConfusion h
      | some t =>
          rw [hts] at h
          have h' : (if 24 * 60 * 60 * 1000 < now - t then
              ProjectStatus.yellow else ProjectStatus.green) =
              ProjectStatus.red := h
          by_cases hage : 24 * 60 * 60 * 1000 < now - t
          · rw [if_pos hage] at h'; exact ProjectStatus.noConfusion h'
          · rw [if_neg hage] at h'; exact ProjectStatus.noConfusion h'
    · intro hS
      unfold deriveHealth
      rw [if_pos hS]
  · intro t hS hseen
    unfold deriveHealth
    rw [if_neg hS]
    rw [show (posTs a.lastSeenAt).orElse (fun _ => posTs a.lastAt) = some t by
      rw [hseen]; rfl]
  · intro t hS hseen hlast
    unfold deriveHealth
    rw [if_neg hS]
    rw [show (posTs a.lastSeenAt).orElse (fun _ => posTs a.lastAt) = some t by
      rw [hseen, hlast]; rfl]
  · intro hS hseen hlast
    unfold deriveHealth
    rw [if_neg hS]
    rw [show (posTs a.lastSeenAt).orElse (fun _ => posTs a.lastAt) = none by
      rw [hseen, hlast]; rfl]

/-- Counterexample for C9: with status `ok`, `lastSeenAt` 24h-stale and
`lastRunAt` fresh, the code returns yellow while the claim's
most-recent-timestamp rule demands green; and the uppercase status
`ERROR` is red in the code though the claim's set {error, failure,
failed} does not contain it. -/
theorem C9_counterexample :
    deriveHealth
        { lastStatus := some "ok", lastSeenAt := some 50,
          lastAt := some 86400000 } 86400100 = .yellow ∧
    deriveHealthClaim
        { lastStatus := some "ok", lastSeenAt := some 50,
          lastAt := some 86400000 } 86400100 = .green ∧
    deriveHealth
        { lastStatus := some "ERROR", lastSeenAt := none, lastAt := none }
        0 = .red ∧
    deriveHealthClaim
        { lastStatus := some "ERROR", lastSeenAt := none, lastAt := none }
        0 = .yellow := by
  refine ⟨by decide, by decide, by decide, by decide⟩

/-- Witness for C9 (amended): the concrete stale-`lastSeenAt` input is
classified yellow through the preference rule. -/
theorem C9_deriveHealth_prefers_lastSeenAt_witness :
    deriveHealth
        { lastStatus := some "ok", lastSeenAt := some 50,
          lastAt := some 86400000 } 86400100 = .yellow := by
  have h := (C9_deriveHealth_prefers_lastSeenAt
      { lastStatus := some "ok", lastSeenAt := some 50,
        lastAt := some 86400000 } 86400100).2.1 50 (by decide) rfl
  rw [h]
  decide

theorem reorderSpecItem_not_mem :
    ∀ (ids : List (String × Nat)) (i : Int) (q : QueueItem),
      q.id ∉ ids.map Prod.fst → reorderSpecItem ids i q = q
  | [], _, _, _ => rfl
  | (id, t) :: rest, i, q, h => by
      have h1 : q.id ≠ id := by
        intro he
        exact h (by rw [he]; exact List.mem_cons_self _ _)
      have h2 : q.id ∉ rest.map Prod.fst := by
        intro hm
        exact h (List.mem_cons_of_mem _ hm)
      simp only [reorderSpecItem]
      rw [if_neg h1]
      exact reorderSpecItem_not_mem rest (i + 1) q h2

theorem reorderQueueGo_spec :
    ∀ (ids : List (String × Nat)) (i : Int) (st : StoreState),
      (ids.map Prod.fst).Nodup →
      (reorderQueueGo st ids i).db.queue =
        st.db.queue.map (reorderSpecItem ids i)
  | [], i, st, _ => by
      show st.db.queue = st.db.queue.map (reorderSpecItem [] i)
      rw [show reorderSpecItem [] i = id from funext fun q => rfl, List.map_id]
  | (id, t) :: rest, i, st, hnd => by
      have hnd2 : (id :: rest.map Prod.fst).Nodup := by
        simpa only [List.map_cons] using hnd
      have hparts := List.nodup_cons.mp hnd2
      have hid : id ∉ rest.map Prod.fst := hparts.1
      have hnd' : (rest.map Prod.fst).Nodup := hparts.2
      show (reorderQueueGo (execDb st fun db => reorderStep db id i t)
        rest (i + 1)).db.queue = _
      rw [reorderQueueGo_spec rest (i + 1) _ hnd']
      show (st.db.queue.map (fun q =>
          if q.id = id then { q with rank := i, updatedAt := t } else q)).map
          (reorderSpecItem rest (i + 1)) =
        st.db.queue.map (reorderSpecItem ((id, t) :: rest) i)
      rw [List.map_map]
      have hfun : reorderSpecItem rest (i + 1) ∘ (fun q =>
          if q.id = id then { q with rank := i, updatedAt := t } else q) =
          reorderSpecItem ((id, t) :: rest) i := by
        funext q
        by_cases hq : q.id = id
        · simp only [Function.comp, if_pos hq]
          have hnm : ({ q with rank := i, updatedAt := t } : QueueItem).id ∉
              rest.map Prod.fst := by
            show q.id ∉ _
            rw [hq]
            exact hid
          rw [reorderSpecItem_not_mem rest (i + 1) _ hnm]
          simp only [reorderSpecItem]
          rw [if_pos hq]
        · simp only [Function.comp, if_neg hq]
          simp only [reorderSpecItem]
          rw [if_neg hq]
      rw [hfun]

/-- C7: with pairwise-distinct ids, `reorderQueue(ids)` rewrites each
listed item's rank to its 1-based position in the list (stamping that
UPDATE's own time as `updatedAt`), leaves every queue item whose id is
not listed completely unchanged, and on the concrete queue holding
exactly {a, b, c} the call `reorderQueue([c, a, b])` makes `listQueue()`
return the items in order c, a, b. -/
theorem C7_reorderQueue_assigns_positions :
    (∀ (st : StoreState) (ids : List (String × Nat)),
        (ids.map Prod.fst).Nodup →
        (reorderQueue st ids).db.queue =
          st.db.queue.map (reorderSpecItem ids 1)) ∧
    (∀ (ids : List (String × Nat)) (i : Int) (q : QueueItem),
        q.id ∉ ids.map Prod.fst → reorderSpecItem ids i q = q) ∧
    ((listQueue (reorderQueue c7st [("q_c", 9), ("q_a", 9), ("q_b", 9)]).db).map
        QueueItem.id = ["q_c", "q_a", "q_b"]) := by
  refine ⟨?_, ?_, ?_⟩
  · intro st ids hnd
    exact reorderQueueGo_spec ids 1 st hnd
  · intro ids i q h
    exact reorderSpecItem_not_mem ids i q h
  · decide

/-- Witness for C7: a one-element reorder on the concrete three-item
queue follows the positional assignment, and the unlisted item `q_a` is
untouched by the specification map. -/
theorem C7_reorderQueue_assigns_positions_witness :
    (reorderQueue c7st [("q_b", 9)]).db.queue =
      c7st.db.queue.map (reorderSpecItem [("q_b", 9)] 1) ∧
    reorderSpecItem [("q_b", 9)] 1 (qItem "q_a" 1) = qItem "q_a" 1 :=
  ⟨C7_reorderQueue_assigns_positions.1 c7st [("q_b", 9)] (by decide),
   C7_reorderQueue_assigns_positions.2.1 [("q_b", 9)] 1 (qItem "q_a" 1)
     (by decide)⟩

theorem find?_map_replace :
    ∀ (l : List Project) (pid : String) (P Q : Project),
      l.find? (fun p => decide (p.id = pid)) = some P → Q.id = pid →
      (l.map (fun x => if x.id = P.id then Q else x)).find?
        (fun p => decide (p.id = pid)) = some Q
  | [], _, _, _, h, _ => Option.noConfusion h
  | x :: xs, pid, P, Q, h, hQ => by
      by_cases hx : x.id = pid
      · rw [List.find?_cons_of_pos xs (by simpa using hx)] at h
        have hxP : x = P := by
          simpa using h
        subst hxP
        simp only [List.map_cons, if_pos rfl]
        exact List.find?_cons_of_pos _ (by simpa using hQ)
      · rw [List.find?_cons_of_neg xs (by simpa using hx)] at h
        have hPid : P.id = pid := by
          simpa using List.find?_some h
        simp only [List.map_cons]
        rw [if_neg (by rw [hPid]; exact hx)]
        rw [List.find?_cons_of_neg _ (by simpa using hx)]
        exact find?_map_replace xs pid P Q h hQ

theorem addUpdate_ok_project {st : StoreState} {pid : String}
    {ty : UpdateType} {text : String} {now : Nat} {uid : String}
    {slot : LogSlot} {bumpNow : Nat} {bumpSlot : LogSlot}
    {st' : StoreState} {u : Update} {P : Project}
    (hg : getProjectById st.db pid = some P)
    (h : addUpdate st pid ty text now uid slot bumpNow bumpSlot
          = .ok (st', u)) :
    u = mkUpdateRow uid pid ty text now ∧
    st'.db.updates = st.db.updates ++ [mkUpdateRow uid pid ty text now] ∧
    st'.db.projects = st.db.projects.map (fun x =>
      if x.id = P.id then { P with updatedAt := bumpNow } else x) ∧
    st'.db.activity = st.db.activity ++ [updateAddedEntry pid ty text slot] := by
  unfold addUpdate at h
  split at h
  · exact Except.noConfusion h
  · obtain ⟨s₁, hins, h₂⟩ := bind_ok h
    obtain ⟨s₂, hbump, hk⟩ := bind_ok h₂
    simp only [Except.ok.injEq, Prod.mk.injEq] at hk
    obtain ⟨hs₂, hu⟩ := hk
    subst hs₂
    have hdb1 := insertActivity_ok_db hins
    have hup1 : s₁.db.updates =
        st.db.updates ++ [mkUpdateRow uid pid ty text now] := by
      rw [hdb1]
      rfl
    have hproj1 : s₁.db.projects = st.db.projects := by
      rw [hdb1]
      rfl
    have hact1 : s₁.db.activity =
        st.db.activity ++ [updateAddedEntry pid ty text slot] := by
      rw [hdb1]
      rfl
    have hpfind : st.db.projects.find? (fun p => decide (p.id = pid))
        = some P := hg
    have hpid : P.id = pid := by
      simpa using List.find?_some hpfind
    have hg1 : getProjectById s₁.db pid = some P := by
      unfold getProjectById
      rw [hproj1]
      exact hpfind
    unfold bumpProject at hbump
    rw [hg1] at hbump
    obtain ⟨r, hupd, hk2⟩ := bind_ok hbump
    simp only [Except.ok.injEq] at hk2
    have hupd' : updateProject s₁ (idOnlyPatch P.id) bumpNow bumpSlot
        = .ok (r.fst, r.snd) := by
      rw [Prod.mk.eta]
      exact hupd
    have hg2 : getProjectById s₁.db (idOnlyPatch P.id).id = some P := by
      show getProjectById s₁.db P.id = some P
      unfold getProjectById
      rw [hproj1, hpid]
      exact hpfind
    obtain ⟨hdbr, -⟩ := updateProject_ok_db hg2 hupd'
    have hact0 : projectStatusActivity P
        (mergeProject P (idOnlyPatch P.id) bumpNow) bumpSlot = [] := by
      unfold projectStatusActivity
      rw [if_neg (fun hne => hne rfl)]
    rw [← hk2]
    refine ⟨hu.symm, ?_, ?_, ?_⟩
    · rw [hdbr]
      exact hup1
    · rw [hdbr]
      show s₁.db.projects.map _ = _
      rw [hproj1]
      rfl
    · rw [hdbr]
      show s₁.db.activity ++ projectStatusActivity P
        (mergeProject P (idOnlyPatch P.id) bumpNow) bumpSlot = _
      rw [hact0, List.append_nil]
      exact hact1

theorem runAddUpdates_ok_shape :
    ∀ (cs : List UpdCall) (st : StoreState) (pid : String) (P : Project)
      (st' : StoreState),
      getProjectById st.db pid = some P →
      runAddUpdates st pid cs = .ok st' →
      st'.db.updates = st.db.updates ++
        cs.map (fun c => mkUpdateRow c.uid pid c.ty c.text c.now) ∧
      ∃ P', getProjectById st'.db pid = some P' ∧
        P'.updatedAt = lastBump P.updatedAt cs
  | [], st, pid, P, st', hg, h => by
      simp only [runAddUpdates, Except.ok.injEq] at h
      subst h
      exact ⟨by rw [List.map_nil, List.append_nil], ⟨P, hg, rfl⟩⟩
  | c :: cs, st, pid, P, st', hg, h => by
      simp only [runAddUpdates] at h
      obtain ⟨r, hadd, hrest⟩ := bind_ok h
      have hadd' : addUpdate st pid c.ty c.text c.now c.uid c.slot c.bumpNow
          c.bumpSlot = .ok (r.fst, r.snd) := by
        rw [Prod.mk.eta]
        exact hadd
      obtain ⟨-, hup, hproj, -⟩ := addUpdate_ok_project hg hadd'
      have hpfind : st.db.projects.find? (fun p => decide (p.id = pid))
          = some P := hg
      have hg' : getProjectById r.fst.db pid =
          some { P with updatedAt := c.bumpNow } := by
        unfold getProjectById
        rw [hproj]
        exact find?_map_replace st.db.projects pid P _ hpfind
          (by simpa using List.find?_some hpfind)
      obtain ⟨hup', ⟨P', hgP', hPupd'⟩⟩ :=
        runAddUpdates_ok_shape cs r.fst pid { P with updatedAt := c.bumpNow }
          st' hg' hrest
      constructor
      · rw [hup', hup]
        simp only [List.map_cons, List.append_assoc, List.singleton_append]
      · exact ⟨P', hgP', by rw [hPupd']; rfl⟩

theorem insertDescUpd_perm (x : UpdateRow) :
    ∀ (l : List UpdateRow), (insertDescUpd x l).Perm (x :: l)
  | [] => List.Perm.refl _
  | y :: ys => by
      simp only [insertDescUpd]
      split
      · exact List.Perm.refl _
      · exact ((insertDescUpd_perm x ys).cons y).trans (List.Perm.swap x y ys)

theorem sortDescUpd_perm : ∀ (l : List UpdateRow), (sortDescUpd l).Perm l
  | [] => List.Perm.refl _
  | x :: xs =>
      (insertDescUpd_perm x (sortDescUpd xs)).trans
        ((sortDescUpd_perm xs).cons x)

theorem joined_filter_count :
    ∀ (us : List Update) (db : DB) (pid : String),
      (getProjectById db pid).isSome = true →
      ((us.filterMap (fun u => (getProjectById db u.projectId).map (fun p =>
          ({ id := u.id, projectId := u.projectId, type := u.type,
             text := u.text, createdAt := u.createdAt,
             projectName := p.name } : UpdateRow)))).filter
        (fun e => decide (e.projectId = pid))).length =
      (us.filter (fun u => decide (u.projectId = pid))).length
  | [], _, _, _ => rfl
  | u :: us, db, pid, hsome => by
      by_cases hu : u.projectId = pid
      · obtain ⟨p, hp⟩ := Option.isSome_iff_exists.mp hsome
        have hlu : getProjectById db u.projectId = some p := by
          rw [hu]
          exact hp
        simp only [List.filterMap_cons, hlu, Option.map_some', List.filter_cons]
        rw [if_pos (by simpa using hu), if_pos (by simpa using hu)]
        simp only [List.length_cons]
        rw [joined_filter_count us db pid hsome]
      · cases hlu : getProjectById db u.projectId with
        | none =>
            simp only [List.filterMap_cons, hlu, Option.map_none',
              List.filter_cons]
            rw [if_neg (by simpa using hu)]
            exact joined_filter_count us db pid hsome
        | some p =>
            simp only [List.filterMap_cons, hlu, Option.map_some',
              List.filter_cons]
            rw [if_neg (by simpa using hu), if_neg (by simpa using hu)]
            exact joined_filter_count us db pid hsome

theorem getLast?_map_list {α β : Type} (f : α → β) :
    ∀ (l : List α), (l.map f).getLast? = l.getLast?.map f
  | [] => rfl
  | [x] => rfl
  | x :: y :: ys => by
      simp only [List.map_cons, List.getLast?_cons_cons]
      have := getLast?_map_list f (y :: ys)
      simpa using this

theorem filter_map_mkRow (cs : List UpdCall) (pid : String) :
    ((cs.map (fun c => mkUpdateRow c.uid pid c.ty c.text c.now)).filter
      (fun u => decide (u.projectId = pid))) =
    cs.map (fun c => mkUpdateRow c.uid pid c.ty c.text c.now) := by
  induction cs with
  | nil => rfl
  | cons c cs ih =>
      simp only [List.map_cons, List.filter_cons]
      rw [if_pos (by simp [mkUpdateRow])]
      rw [ih]

theorem lastBump_getLast? :
    ∀ (cs : List UpdCall) (d : Nat) (c : UpdCall),
      cs.getLast? = some c → lastBump d cs = c.bumpNow
  | [], _, _, h => Option.noConfusion h
  | [c'], d, c, h => by
      have : c' = c := by simpa using h
      subst this
      rfl
  | c' :: c'' :: cs, d, c, h => by
      rw [List.getLast?_cons_cons] at h
      exact lastBump_getLast? (c'' :: cs) c'.bumpNow c h

/-- C5 (amended): for a sequence of N successful `addUpdate` calls
targeting an existing project P with no prior updates, the number of
`listRecentUpdates` entries (with limit at least the table size) whose
projectId is P's equals N; P's `updatedAt` afterwards equals the clock
value read inside the final call's internal `updateProject` bump (the
`updatedAt: now` the bump passes is discarded and `Date.now()` is read
again), so it equals the most recent update's `createdAt` exactly when
those two reads fall in the same millisecond. -/
theorem C5_addUpdate_sequence_count (st : StoreState) (pid : String)
    (P : Project) (cs : List UpdCall) (st' : StoreState) (limit : Nat)
    (hg : getProjectById st.db pid = some P)
    (hnone : ∀ u ∈ st.db.updates, u.projectId ≠ pid)
    (hrun : runAddUpdates st pid cs = .ok st')
    (hlimit : st'.db.updates.length ≤ limit) :
    ((listRecentUpdates st'.db limit).filter
        (fun e => decide (e.projectId = pid))).length = cs.length ∧
    (∀ c, cs.getLast? = some c →
      (∃ P', getProjectById st'.db pid = some P' ∧ P'.updatedAt = c.bumpNow) ∧
      (st'.db.updates.filter (fun u => decide (u.projectId = pid))).getLast?.map
          Update.createdAt = some c.now ∧
      (c.bumpNow = c.now →
        ∃ P', getProjectById st'.db pid = some P' ∧
          (st'.db.updates.filter
            (fun u => decide (u.projectId = pid))).getLast?.map
              Update.createdAt = some P'.updatedAt)) := by
  obtain ⟨hupdates, P', hgP', hPupd⟩ :=
    runAddUpdates_ok_shape cs st pid P st' hg hrun
  have hfilter : st'.db.updates.filter (fun u => decide (u.projectId = pid)) =
      cs.map (fun c => mkUpdateRow c.uid pid c.ty c.text c.now) := by
    rw [hupdates, List.filter_append]
    rw [List.filter_eq_nil_iff.mpr (by intro a ha; simpa using hnone a ha)]
    rw [List.nil_append, filter_map_mkRow]
  constructor
  · unfold listRecentUpdates
    have hlen : (sortDescUpd (joinUpdates st'.db)).length ≤ limit := by
      rw [(sortDescUpd_perm (joinUpdates st'.db)).length_eq]
      exact le_trans (List.length_filterMap_le _ _) hlimit
    rw [List.take_of_length_le hlen]
    rw [(List.Perm.filter _ (sortDescUpd_perm (joinUpdates st'.db))).length_eq]
    unfold joinUpdates
    rw [joined_filter_count st'.db.updates st'.db pid (by rw [hgP']; rfl)]
    rw [hfilter, List.length_map]
  · intro c hc
    have hP'bump : P'.updatedAt = c.bumpNow := by
      rw [hPupd]
      exact lastBump_getLast? cs P.updatedAt c hc
    have hcreated : (st'.db.updates.filter
        (fun u => decide (u.projectId = pid))).getLast?.map Update.createdAt
        = some c.now := by
      rw [hfilter, getLast?_map_list, hc]
      rfl
    exact ⟨⟨P', hgP', hP'bump⟩, hcreated,
      fun heq => ⟨P', hgP', by rw [hcreated, hP'bump, heq]⟩⟩

/-- Counterexample for C5: one successful `addUpdate` to project `p_1`
whose two `Date.now()` reads straddle a millisecond tick (100 then 101).
The update's `createdAt` is 100 but the project's `updatedAt` ends at
101, because `updateProject` discards the `updatedAt: now` value the
bump passes and reads the clock again — so the claim's unconditional
equality between the project's `updatedAt` and the most recent update's
`createdAt` is false. -/
theorem C5_counterexample :
    (match runAddUpdates prst "p_1" [c5call] with
     | .ok st' => some ((getProjectById st'.db "p_1").map Project.updatedAt,
         (st'.db.updates.filter
           (fun u => decide (u.projectId = "p_1"))).getLast?.map
             Update.createdAt)
     | .error _ => none) = some (some 101, some 100) ∧
    ¬((match runAddUpdates prst "p_1" [c5call] with
       | .ok st' => (getProjectById st'.db "p_1").map Project.updatedAt
       | .error _ => none) =
      (match runAddUpdates prst "p_1" [c5call] with
       | .ok st' => (st'.db.updates.filter
           (fun u => decide (u.projectId = "p_1"))).getLast?.map
             Update.createdAt
       | .error _ => none)) := by
  refine ⟨by decide, by decide⟩

/-- Witness for C5 (amended): running the same-millisecond call against
the concrete one-project store yields one matching listed row, and the
most recent update's `createdAt` is the call's initial clock read. -/
theorem C5_addUpdate_sequence_count_witness :
    ((listRecentUpdates c5fin.db 10).filter
        (fun e => decide (e.projectId = "p_1"))).length = 1 ∧
    (c5fin.db.updates.filter
        (fun u => decide (u.projectId = "p_1"))).getLast?.map
          Update.createdAt = some 100 := by
  have h := C5_addUpdate_sequence_count prst "p_1" sampleProject [c5same]
    c5fin 10 (by decide) (by decide) (by rfl) (by decide)
  exact ⟨h.1, (h.2 c5same rfl).2.1⟩

end Dashboard
